import Mathlib

/-!
Verification development for the refig figure-metadata library.

Shallow embedding of:
* the PNG metadata codec (`src/refig/_png.py`),
* the SVG metadata codec (`src/refig/_svg.py`),
* the persistence core (`src/refig/_core.py`),

together with models of the Python standard-library collaborators the
code calls (`json.dumps`/`json.loads` with `sort_keys=True` and compact
separators, UTF-8 encode/decode, `html.escape`/`html.unescape` on the
escape repertoire, `str.strip`, `datetime.fromisoformat`/`isoformat`/
`strftime`).

Bytes are modelled as `List Nat` (one byte value per element) and Python
`str` text as `List Char` (one Unicode scalar per element).
-/

namespace Refig

/-! ### Character helpers -/

/-- ASCII lower-casing of a character, as used by case-insensitive regex
literal matching on the ASCII patterns that occur in the source. -/
def lowerC (c : Char) : Char :=
  if 'A' ≤ c ∧ c ≤ 'Z' then Char.ofNat (c.toNat + 32) else c

/-- Word character for regex `\b` word boundaries (ASCII fragment of
Python `\w`). -/
def isWordChar (c : Char) : Bool :=
  c.isAlphanum || c = '_'

/-- Decimal digit character for values below ten; mirrors Python's
formatting of nonnegative integers digit by digit. -/
def digitCh (d : Nat) : Char := Char.ofNat (48 + d)

/-- Fueled digit loop accumulating decimal digits from the right; the
fuel only needs to exceed the digit count. -/
def natCharsAux : Nat → Nat → List Char → List Char
  | 0, _, acc => acc
  | fuel + 1, n, acc =>
    if n < 10 then digitCh n :: acc
    else natCharsAux fuel (n / 10) (digitCh (n % 10) :: acc)

/-- Decimal digits of a natural number, most significant first
(the digits of Python `str(n)` for `n ≥ 0`). -/
def natChars (n : Nat) : List Char := natCharsAux (n + 1) n []

/-- Digits of Python `str(i)` for an arbitrary integer. -/
def intChars (i : Int) : List Char :=
  if i < 0 then '-' :: natChars i.natAbs else natChars i.toNat

/-- Numeric value of a decimal digit character. -/
def digitVal (c : Char) : Nat := c.toNat - 48

/-- Value of a run of decimal digit characters, most significant first. -/
def charsVal (l : List Char) : Nat := l.foldl (fun a c => a * 10 + digitVal c) 0

/-- Lower-case hexadecimal digit character, as emitted by Python's
`json.dumps` for `\uXXXX` escapes. -/
def hexDigit (d : Nat) : Char :=
  if d < 10 then digitCh d else Char.ofNat (87 + d)

/-- Four lower-case hex digits of a value below `0x10000`. -/
def hex4 (n : Nat) : List Char :=
  [hexDigit (n / 4096 % 16), hexDigit (n / 256 % 16), hexDigit (n / 16 % 16), hexDigit (n % 16)]

/-- Numeric value of one hexadecimal digit character (either case), or
`none` for other characters. -/
def hexVal (c : Char) : Option Nat :=
  if '0' ≤ c ∧ c ≤ '9' then some (c.toNat - 48)
  else if 'a' ≤ c ∧ c ≤ 'f' then some (c.toNat - 87)
  else if 'A' ≤ c ∧ c ≤ 'F' then some (c.toNat - 55)
  else none

/-- Lexicographic strict order on text by code point, the order Python's
`sorted` uses on `str` keys. -/
def strLtB : List Char → List Char → Bool
  | [], [] => false
  | [], _ :: _ => true
  | _ :: _, [] => false
  | a :: as, b :: bs =>
    if a.toNat < b.toNat then true
    else if b.toNat < a.toNat then false
    else strLtB as bs

/-! ### JSON value model

The metadata records the codecs serialize are JSON values.  Numbers are
restricted to integers (the only numbers the library itself produces);
this mirrors `json.dumps(..., separators=(",", ":"), sort_keys=True)`
with the default `ensure_ascii=True`. -/

inductive Json where
  | null : Json
  | bool (b : Bool) : Json
  | num (n : Int) : Json
  | str (s : List Char) : Json
  | arr (elems : List Json) : Json
  | obj (members : List (List Char × Json)) : Json

/-- Compact JSON escape of one character, following CPython's
`json.encoder.py_encode_basestring_ascii`: two-character short escapes,
literal printable ASCII, and `\uXXXX` (with a surrogate pair above the
BMP). -/
def escChar (c : Char) : List Char :=
  if c = '"' then ['\\', '"']
  else if c = '\\' then ['\\', '\\']
  else if c = '\n' then ['\\', 'n']
  else if c = '\r' then ['\\', 'r']
  else if c = '\t' then ['\\', 't']
  else if c = Char.ofNat 8 then ['\\', 'b']
  else if c = Char.ofNat 12 then ['\\', 'f']
  else if 0x20 ≤ c.toNat ∧ c.toNat ≤ 0x7e then [c]
  else if c.toNat < 0x10000 then '\\' :: 'u' :: hex4 c.toNat
  else
    '\\' :: 'u' :: hex4 (0xd800 + (c.toNat - 0x10000) / 0x400) ++
      ('\\' :: 'u' :: hex4 (0xdc00 + (c.toNat - 0x10000) % 0x400))

/-- JSON escape of a whole string body. -/
def escString : List Char → List Char
  | [] => []
  | c :: r => escChar c ++ escString r

/-- Insert a serialized object member into a key-sorted run, keeping the
run sorted (one step of the stable sort behind `sort_keys=True`). -/
def insertPair (p : List Char × List Char) :
    List (List Char × List Char) → List (List Char × List Char)
  | [] => [p]
  | q :: qs => if strLtB q.1 p.1 then q :: insertPair p qs else p :: q :: qs

/-- Sort serialized object members by key (Python `sorted` on the keys). -/
def sortPairsByKey : List (List Char × List Char) → List (List Char × List Char)
  | [] => []
  | p :: ps => insertPair p (sortPairsByKey ps)

/-- Join serialized fragments with the compact `,` item separator. -/
def joinComma : List (List Char) → List Char
  | [] => []
  | [x] => x
  | x :: y :: r => x ++ (',' :: joinComma (y :: r))

mutual

/-- Model of `json.dumps(v, separators=(",", ":"), sort_keys=True)`:
compact separators, object keys sorted, ASCII-only output. -/
def dumpsJson : Json → List Char
  | .null => "null".data
  | .bool true => "true".data
  | .bool false => "false".data
  | .num i => intChars i
  | .str s => '"' :: (escString s ++ ['"'])
  | .arr es => '[' :: (dumpsElems es ++ [']'])
  | .obj ms => '{' :: (joinComma ((sortPairsByKey (serMembs ms)).map Prod.snd) ++ ['}'])

/-- Comma-joined serialization of array elements. -/
def dumpsElems : List Json → List Char
  | [] => []
  | [v] => dumpsJson v
  | v :: w :: r => dumpsJson v ++ (',' :: dumpsElems (w :: r))

/-- Serialized `"key":value` fragment for each object member, keyed for
sorting. -/
def serMembs : List (List Char × Json) → List (List Char × List Char)
  | [] => []
  | (k, v) :: r => (k, '"' :: (escString k ++ ('"' :: ':' :: dumpsJson v))) :: serMembs r

end

/-- Separator-prefixed serialization of the remaining elements: empty
for none, a comma and the rest otherwise. -/
def dumpsSep (es : List Json) : List Char :=
  match es with
  | [] => []
  | _ :: _ => ',' :: dumpsElems es

/-- Comma-joined `"key":value` fragments in the order given; equals the
object body of `dumpsJson` once the members are already sorted. -/
def membsChars : List (List Char × Json) → List Char
  | [] => []
  | [(k, v)] => '"' :: (escString k ++ ('"' :: ':' :: dumpsJson v))
  | (k, v) :: m :: r =>
    ('"' :: (escString k ++ ('"' :: ':' :: dumpsJson v))) ++ (',' :: membsChars (m :: r))

/-- First components strictly ascending in Python's string order. -/
def sortedFstB {α : Type} : List (List Char × α) → Bool
  | [] => true
  | [_] => true
  | p :: q :: r => strLtB p.1 q.1 && sortedFstB (q :: r)

/-- Keys strictly ascending in Python's string order: the canonical-form
condition under which a Lean association list represents a Python dict
whose sorted serialization lists the members in the given order. -/
def sortedKeysB (l : List (List Char × Json)) : Bool := sortedFstB l

mutual

/-- Well-formedness of a canonical JSON value: strings stay within the
BMP (so `dumps` uses single `\uXXXX` escapes) and object keys are
strictly sorted and themselves well-formed. -/
def jsonWF : Json → Bool
  | .null => true
  | .bool _ => true
  | .num _ => true
  | .str s => s.all (fun c => c.toNat < 0x10000)
  | .arr es => jsonWFList es
  | .obj ms => sortedKeysB ms && jsonWFMembs ms

/-- Well-formedness of every element of an array. -/
def jsonWFList : List Json → Bool
  | [] => true
  | v :: r => jsonWF v && jsonWFList r

/-- Well-formedness of every member of an object. -/
def jsonWFMembs : List (List Char × Json) → Bool
  | [] => true
  | (k, v) :: r => k.all (fun c => c.toNat < 0x10000) && jsonWF v && jsonWFMembs r

end

mutual

/-- Structural size used as parser fuel: at least one unit per node. -/
def jsize : Json → Nat
  | .null => 1
  | .bool _ => 1
  | .num _ => 1
  | .str _ => 1
  | .arr es => 1 + jsizeList es
  | .obj ms => 1 + jsizeMembs ms

/-- Summed sizes of array elements. -/
def jsizeList : List Json → Nat
  | [] => 0
  | v :: r => 1 + jsize v + jsizeList r

/-- Summed sizes of object members. -/
def jsizeMembs : List (List Char × Json) → Nat
  | [] => 0
  | (_, v) :: r => 1 + jsize v + jsizeMembs r

end

/-! ### JSON parser

Model of `json.loads` on the grammar `dumpsJson` emits (compact
separators, no interior whitespace, integer numbers, BMP `\uXXXX`
escapes).  Leading and trailing whitespace is stripped as the real
loader does.  Inputs outside this grammar may be rejected where CPython
would accept them (floats, interior whitespace); no claim depends on
that fringe, only on whether parsing succeeds on serializer output. -/

/-- JSON whitespace characters (`json.decoder` strips exactly these). -/
def isJsonWS (c : Char) : Bool := c = ' ' || c = '\t' || c = '\n' || c = '\r'

/-- Strip of leading and trailing JSON whitespace. -/
def stripWS (l : List Char) : List Char :=
  ((l.dropWhile isJsonWS).reverse.dropWhile isJsonWS).reverse

/-- Unescape of a single short backslash escape. -/
def unescChar (e : Char) : Option Char :=
  if e = '"' then some '"'
  else if e = '\\' then some '\\'
  else if e = '/' then some '/'
  else if e = 'n' then some '\n'
  else if e = 't' then some '\t'
  else if e = 'r' then some '\r'
  else if e = 'b' then some (Char.ofNat 8)
  else if e = 'f' then some (Char.ofNat 12)
  else none

/-- Parse of a string body up to and past its closing quote, undoing the
escapes `escChar` produces. -/
def parseStrBody : List Char → Option (List Char × List Char)
  | [] => none
  | c :: r =>
    if c = '"' then some ([], r)
    else if c = '\\' then
      match r with
      | [] => none
      | e :: r2 =>
        if e = 'u' then
          match r2 with
          | h1 :: h2 :: h3 :: h4 :: r3 =>
            match hexVal h1, hexVal h2, hexVal h3, hexVal h4 with
            | some a, some b, some c2, some d =>
              let n := a * 4096 + b * 256 + c2 * 16 + d
              if n < 0xd800 ∨ 0xe000 ≤ n then
                (parseStrBody r3).map (fun p => (Char.ofNat n :: p.1, p.2))
              else none
            | _, _, _, _ => none
          | _ => none
        else
          (unescChar e).bind fun u => (parseStrBody r2).map (fun p => (u :: p.1, p.2))
    else (parseStrBody r).map (fun p => (c :: p.1, p.2))

/-- Maximal-munch parse of a nonempty run of decimal digits. -/
def parseNatNum (s : List Char) : Option (Nat × List Char) :=
  let ds := s.takeWhile Char.isDigit
  if ds.isEmpty then none else some (charsVal ds, s.dropWhile Char.isDigit)

mutual

/-- Fueled parse of one JSON value. -/
def parseJ : Nat → List Char → Option (Json × List Char)
  | 0, _ => none
  | f + 1, s =>
    match s with
    | [] => none
    | c :: r =>
      if c = 'n' then if "ull".data.isPrefixOf r then some (.null, r.drop 3) else none
      else if c = 't' then if "rue".data.isPrefixOf r then some (.bool true, r.drop 3) else none
      else if c = 'f' then if "alse".data.isPrefixOf r then some (.bool false, r.drop 4) else none
      else if c = '"' then (parseStrBody r).map (fun p => (.str p.1, p.2))
      else if c = '[' then
        match r with
        | ']' :: rest => some (.arr [], rest)
        | _ => (parseElems f r).map (fun p => (.arr p.1, p.2))
      else if c = '{' then
        match r with
        | '}' :: rest => some (.obj [], rest)
        | _ => (parseMembs f r).map (fun p => (.obj p.1, p.2))
      else if c = '-' then (parseNatNum r).map (fun p => (.num (-(p.1 : Int)), p.2))
      else if c.isDigit then (parseNatNum (c :: r)).map (fun p => (.num (p.1 : Int), p.2))
      else none

/-- Fueled parse of the remaining elements of a nonempty array. -/
def parseElems : Nat → List Char → Option (List Json × List Char)
  | 0, _ => none
  | f + 1, s =>
    match parseJ f s with
    | some (v, ',' :: rest) => (parseElems f rest).map (fun p => (v :: p.1, p.2))
    | some (v, ']' :: rest) => some ([v], rest)
    | _ => none

/-- Fueled parse of the remaining members of a nonempty object. -/
def parseMembs : Nat → List Char → Option (List (List Char × Json) × List Char)
  | 0, _ => none
  | f + 1, s =>
    match s with
    | '"' :: r =>
      match parseStrBody r with
      | some (k, ':' :: rest) =>
        match parseJ f rest with
        | some (v, ',' :: rest2) => (parseMembs f rest2).map (fun p => ((k, v) :: p.1, p.2))
        | some (v, '}' :: rest2) => some ([(k, v)], rest2)
        | _ => none
      | _ => none
    | _ => none

end

/-- Boundary condition for maximal-munch number parsing: the following
text does not begin with a digit. -/
def numBoundaryB : List Char → Bool
  | [] => true
  | c :: _ => !c.isDigit

/-- Model of `json.loads`: strip surrounding whitespace, parse one value,
require the input to be exhausted. -/
def loads (s : List Char) : Option Json :=
  let s2 := stripWS s
  match parseJ (s2.length + 1) s2 with
  | some (v, []) => some v
  | _ => none

/-! ### UTF-8

Model of Python `str.encode("utf-8")` and strict `bytes.decode("utf-8")`
(shortest-form encodings only, surrogates rejected, `0x80..0xC1` and
`0xF5..` lead bytes rejected). -/

/-- UTF-8 encoding of one scalar value. -/
def encodeChar (c : Char) : List Nat :=
  let v := c.toNat
  if v < 0x80 then [v]
  else if v < 0x800 then [0xc0 + v / 64, 0x80 + v % 64]
  else if v < 0x10000 then [0xe0 + v / 4096, 0x80 + v / 64 % 64, 0x80 + v % 64]
  else [0xf0 + v / 262144, 0x80 + v / 4096 % 64, 0x80 + v / 64 % 64, 0x80 + v % 64]

/-- UTF-8 encoding of a string. -/
def encodeUtf8 : List Char → List Nat
  | [] => []
  | c :: r => encodeChar c ++ encodeUtf8 r

mutual

/-- Strict UTF-8 decoding of a byte sequence; `none` models
`UnicodeDecodeError`. -/
def decodeUtf8 : List Nat → Option (List Char)
  | [] => some []
  | b :: rest =>
    if b < 0x80 then (decodeUtf8 rest).map (Char.ofNat b :: ·)
    else if b < 0xc2 then none
    else if b < 0xe0 then decodeTail2 b rest
    else if b < 0xf0 then decodeTail3 b rest
    else if b < 0xf5 then decodeTail4 b rest
    else none

/-- Continuation byte of a two-byte sequence. -/
def decodeTail2 (b : Nat) : List Nat → Option (List Char)
  | b1 :: r =>
    if 0x80 ≤ b1 ∧ b1 < 0xc0 then
      (decodeUtf8 r).map (Char.ofNat ((b - 0xc0) * 64 + (b1 - 0x80)) :: ·)
    else none
  | [] => none

/-- Continuation bytes of a three-byte sequence, with the lead-byte
dependent ranges that exclude overlong forms and surrogates. -/
def decodeTail3 (b : Nat) : List Nat → Option (List Char)
  | b1 :: b2 :: r =>
    if (if b = 0xe0 then 0xa0 ≤ b1 else 0x80 ≤ b1) ∧
        (if b = 0xed then b1 < 0xa0 else b1 < 0xc0) ∧ 0x80 ≤ b2 ∧ b2 < 0xc0 then
      (decodeUtf8 r).map (Char.ofNat ((b - 0xe0) * 4096 + (b1 - 0x80) * 64 + (b2 - 0x80)) :: ·)
    else none
  | _ => none

/-- Continuation bytes of a four-byte sequence. -/
def decodeTail4 (b : Nat) : List Nat → Option (List Char)
  | b1 :: b2 :: b3 :: r =>
    if (if b = 0xf0 then 0x90 ≤ b1 else 0x80 ≤ b1) ∧
        (if b = 0xf4 then b1 < 0x90 else b1 < 0xc0) ∧
        0x80 ≤ b2 ∧ b2 < 0xc0 ∧ 0x80 ≤ b3 ∧ b3 < 0xc0 then
      (decodeUtf8 r).map
        (Char.ofNat ((b - 0xf0) * 262144 + (b1 - 0x80) * 4096 + (b2 - 0x80) * 64 + (b3 - 0x80)) :: ·)
    else none
  | _ => none

end

/-! ### Python `html` and `str` helpers -/

/-- Escape of one character, following `html.escape(s, quote=True)`. -/
def escapeHtml1 (c : Char) : List Char :=
  if c = '&' then "&amp;".data
  else if c = '<' then "&lt;".data
  else if c = '>' then "&gt;".data
  else if c = '"' then "&quot;".data
  else if c = '\'' then "&#x27;".data
  else [c]

/-- Escape of a whole string (`html.escape`). -/
def escapeHtml : List Char → List Char
  | [] => []
  | c :: r => escapeHtml1 c ++ escapeHtml r

/-- Model of `html.unescape` on the entity repertoire `html.escape`
produces; other ampersands are kept verbatim, as the library does for
unrecognized entity text. -/
def pyUnescape : List Char → List Char
  | [] => []
  | '&' :: 'a' :: 'm' :: 'p' :: ';' :: r => '&' :: pyUnescape r
  | '&' :: 'l' :: 't' :: ';' :: r => '<' :: pyUnescape r
  | '&' :: 'g' :: 't' :: ';' :: r => '>' :: pyUnescape r
  | '&' :: 'q' :: 'u' :: 'o' :: 't' :: ';' :: r => '"' :: pyUnescape r
  | '&' :: '#' :: 'x' :: '2' :: '7' :: ';' :: r => '\'' :: pyUnescape r
  | c :: r => c :: pyUnescape r

/-- ASCII whitespace stripped by `str.strip()` (the Unicode-only space
code points do not occur in any value this development manipulates). -/
def isPySpace (c : Char) : Bool :=
  c = ' ' || c = '\t' || c = '\n' || c = '\r' || c = Char.ofNat 11 || c = Char.ofNat 12

/-- Model of `str.strip()`. -/
def pyStrip (l : List Char) : List Char :=
  ((l.dropWhile isPySpace).reverse.dropWhile isPySpace).reverse

/-! ### PNG codec (`src/refig/_png.py`) -/

/-- The fixed eight-byte PNG signature `b"\x89PNG\r\n\x1a\n"`. -/
def pngSig : List Nat := [0x89, 0x50, 0x4e, 0x47, 0x0d, 0x0a, 0x1a, 0x0a]

/-- The `tEXt` chunk type tag, as bytes. -/
def tEXtType : List Nat := [0x74, 0x45, 0x58, 0x74]

/-- The reserved keyword `refig`, latin-1 encoded. -/
def refigKeyword : List Nat := [0x72, 0x65, 0x66, 0x69, 0x67]

/-- Big-endian four-byte encoding (`struct.pack(">I", n)` after the
`& 0xFFFFFFFF` mask the source applies). -/
def toBE4 (n : Nat) : List Nat :=
  [n / 16777216 % 256, n / 65536 % 256, n / 256 % 256, n % 256]

/-- Big-endian 32-bit read (`struct.unpack(">I", b)` on four bytes). -/
def be32 : List Nat → Nat
  | [a, b, c, d] => ((a * 256 + b) * 256 + c) * 256 + d
  | _ => 0

/-- One bit step of the reflected CRC-32 computation. -/
def crc32Step (c : Nat) : Nat :=
  if c % 2 = 1 then (c / 2) ^^^ 0xedb88320 else c / 2

/-- Fold of one byte into the running CRC-32 state. -/
def crc32Byte (c b : Nat) : Nat := crc32Step^[8] (c ^^^ b)

/-- Model of `zlib.crc32` over a byte sequence. -/
def crc32 (data : List Nat) : Nat :=
  (data.foldl crc32Byte 0xffffffff) ^^^ 0xffffffff

/-- Split of chunk data at the first zero byte
(`chunk_data.partition(b"\x00")`: text before it, text after it; a
missing separator leaves the second component empty). -/
def splitNull : List Nat → List Nat × List Nat
  | [] => ([], [])
  | b :: r => if b = 0 then ([], r) else ((splitNull r).1.cons b, (splitNull r).2)

namespace Png

/-- Error taxonomy of the PNG codec paths: the first three constructors
are `PNGMetadataError` (the spec's FormatError); `structError`,
`unicodeError` and `jsonError` model `struct.error`,
`UnicodeDecodeError` and `json.JSONDecodeError`, which are not
FormatErrors. -/
inductive Err where
  | notPng : Err
  | noMetadata : Err
  | invalidTextChunk : Err
  | structError : Err
  | unicodeError : Err
  | jsonError : Err
deriving DecidableEq

/-- Model of `_build_text_chunk`: length, type, keyword + NUL + text,
CRC-32 over type and data. -/
def buildTextChunk (keyword textBytes : List Nat) : List Nat :=
  let chunkData := keyword ++ (0 :: textBytes)
  toBE4 chunkData.length ++ (tEXtType ++ (chunkData ++ toBE4 (crc32 (tEXtType ++ chunkData))))

/-- Model of `embed_metadata`: require the signature, then return
signature + new chunk + remainder of the original bytes. -/
def embed_metadata (png : List Nat) (metadata : Json) : Except Err (List Nat) :=
  if pngSig.isPrefixOf png then
    .ok (pngSig ++ (buildTextChunk refigKeyword (encodeUtf8 (dumpsJson metadata)) ++ png.drop 8))
  else .error .notPng

/-- Scan loop of `extract_metadata` over the byte stream following the
signature, fused with `_iter_chunks` and `_split_text_chunk`: read the
4-byte length (fewer than 4 remaining bytes make `struct.unpack`
fail), slice type and data, inspect `tEXt` chunks, skip 4 CRC bytes,
continue. -/
def extractLoop (rem : List Nat) : Except Err Json :=
  if (rem.take 4).isEmpty then .error .noMetadata
  else if (rem.take 4).length < 4 then .error .structError
  else
    let len := be32 (rem.take 4)
    let ty := (rem.drop 4).take 4
    let da := (rem.drop 8).take len
    if ty = tEXtType then
      let kw := (splitNull da).1
      let txt := (splitNull da).2
      if kw.isEmpty then .error .invalidTextChunk
      else
        match decodeUtf8 txt with
        | none => .error .unicodeError
        | some text =>
          if kw = refigKeyword then
            match loads text with
            | none => .error .jsonError
            | some v => .ok v
          else extractLoop (rem.drop (12 + len))
    else extractLoop (rem.drop (12 + len))
termination_by rem.length
decreasing_by
  all_goals
    rename_i hne _
    have h1 : rem ≠ [] := by
      intro h
      rw [h] at hne
      simp at hne
    have h2 : 0 < rem.length := List.length_pos.mpr h1
    simp only [List.length_drop]
    omega

/-- Model of `extract_metadata`. -/
def extract_metadata (png : List Nat) : Except Err Json :=
  if pngSig.isPrefixOf png then extractLoop (png.drop 8) else .error .notPng

/-- Observation of the chunk stream after the signature as a list of
(type, data) pairs, with the same framing arithmetic as
`_iter_chunks`; a truncated length field ends the observation. -/
def chunkSeq (rem : List Nat) : List (List Nat × List Nat) :=
  if (rem.take 4).length < 4 then []
  else
    let len := be32 (rem.take 4)
    ((rem.drop 4).take 4, (rem.drop 8).take len) :: chunkSeq (rem.drop (12 + len))
termination_by rem.length
decreasing_by
  rename_i hge
  have h2 : 4 ≤ rem.length := by
    by_contra hlt
    exact hge (by simp [List.length_take]; omega)
  simp only [List.length_drop]
  omega

/-- Chunk stream of a signed PNG byte string. -/
def pngChunks (png : List Nat) : List (List Nat × List Nat) := chunkSeq (png.drop 8)

/-- Test for the reserved metadata block: a `tEXt` chunk whose keyword
(the data before the first zero byte) is `refig`. -/
def isRefigChunk (c : List Nat × List Nat) : Bool :=
  c.1 = tEXtType && (splitNull c.2).1 = refigKeyword

/-- Count of reserved metadata blocks in a PNG byte string. -/
def countRefigChunks (png : List Nat) : Nat :=
  (pngChunks png).countP isRefigChunk

/-- FormatError classifier for PNG extraction results: exactly the
`PNGMetadataError` outcomes. -/
def isFormatError : Except Err Json → Bool
  | .error .notPng => true
  | .error .noMetadata => true
  | .error .invalidTextChunk => true
  | _ => false

end Png

/-! ### SVG codec (`src/refig/_svg.py`)

The source locates its metadata element with the regex

  `<metadata\b[^>]*\bid=(?P<quote>['\"])refig(?P=quote)[^>]*>(?P<body>.*?)</metadata>`

compiled with `DOTALL | IGNORECASE`, and the root tag with
`<svg\b[^>]*>` (`IGNORECASE`).  Because none of `[^>]*`, the quotes,
`id=` and `refig` may contain `>`, a match starting at a position `p`
necessarily closes its opening-tag part at the first `>` after the
case-insensitive literal `<metadata`, must satisfy the two word
boundaries, must contain `id=` + quote + `refig` + same quote inside
the region before that `>`, and takes the lazy body up to the first
following `</metadata>`.  The functions below implement exactly that
leftmost-match search as total recursive functions. -/

/-- Lower-cased literal `<metadata`. -/
def metaPat : List Char := "<metadata".data

/-- Literal `</metadata>` (lower-cased closing pattern). -/
def closePat : List Char := "</metadata>".data

/-- Case-insensitive literal prefix test (pattern given lower-cased). -/
def ciIsPrefix : List Char → List Char → Bool
  | [], _ => true
  | _ :: _, [] => false
  | p :: ps, c :: cs => lowerC c = p && ciIsPrefix ps cs

/-- Index of the first occurrence of a character. -/
def findChar (c : Char) : List Char → Option Nat
  | [] => none
  | x :: xs => if x = c then some 0 else (findChar c xs).map (· + 1)

/-- Index of the first suffix position at which the (lower-cased)
pattern occurs case-insensitively. -/
def findCI (pat : List Char) : List Char → Option Nat
  | [] => if ciIsPrefix pat [] then some 0 else none
  | c :: cs => if ciIsPrefix pat (c :: cs) then some 0 else (findCI pat cs).map (· + 1)

/-- Test whether the text begins with `id=` + quote + `refig` + the same
quote, case-insensitively on the literals. -/
def idRefigAt (s : List Char) : Bool :=
  if ciIsPrefix "id=".data s then
    match s.drop 3 with
    | q :: rest =>
      if (q = '"' || q = '\'') && ciIsPrefix "refig".data rest then
        match rest.drop 5 with
        | q2 :: _ => q2 = q
        | [] => false
      else false
    | [] => false
  else false

/-- Scan of the opening-tag region for an `id=...refig...` attribute
occurrence preceded by a word boundary; `prev` is the character just
before the current position (initially the final `a` of `metadata`). -/
def hasIdRefig (prev : Char) : List Char → Bool
  | [] => false
  | c :: cs => (!isWordChar prev && idRefigAt (c :: cs)) || hasIdRefig c cs

/-- Attempted match of the metadata-element pattern anchored at the
start of `s`; on success returns the decomposition
(opening tag incl. `>`, body, remainder starting with `</metadata>`). -/
def matchMetaAt (s : List Char) : Option (List Char × List Char × List Char) :=
  if ciIsPrefix metaPat s then
    match s.drop 9 with
    | [] => none
    | c :: _ =>
      if isWordChar c then none
      else
        match findChar '>' (s.drop 9) with
        | none => none
        | some g =>
          if hasIdRefig 'a' ((s.drop 9).take g) then
            match findCI closePat (s.drop (9 + g + 1)) with
            | none => none
            | some k =>
              some (s.take (9 + g + 1), (s.drop (9 + g + 1)).take k, (s.drop (9 + g + 1)).drop k)
          else none
  else none

/-- Leftmost match of the metadata-element pattern, as the
decomposition `text = pre ++ openTag ++ body ++ tail` with `tail`
starting at the closing `</metadata>`. -/
structure MetaMatch where
  pre : List Char
  openTag : List Char
  body : List Char
  tail : List Char

/-- Leftmost-match search for the metadata pattern
(`_METADATA_PATTERN.search`). -/
def findMetaSplit : List Char → Option MetaMatch
  | [] => none
  | c :: cs =>
    match matchMetaAt (c :: cs) with
    | some (o, b, r) => some ⟨[], o, b, r⟩
    | none => (findMetaSplit cs).map (fun q => ⟨c :: q.pre, q.openTag, q.body, q.tail⟩)

/-- Attempted match of the root-tag pattern `<svg\b[^>]*>` anchored at
the start of `s`; on success returns (tag incl. `>`, remainder). -/
def matchSvgAt (s : List Char) : Option (List Char × List Char) :=
  if ciIsPrefix "<svg".data s then
    match s.drop 4 with
    | [] => none
    | c :: _ =>
      if isWordChar c then none
      else
        match findChar '>' (s.drop 4) with
        | none => none
        | some g => some (s.take (4 + g + 1), s.drop (4 + g + 1))
  else none

/-- Leftmost-match search for the root tag
(`_SVG_OPEN_TAG_PATTERN.search`), as `text = pre ++ tag ++ rest`. -/
def findSvgSplit : List Char → Option (List Char × List Char × List Char)
  | [] => none
  | c :: cs =>
    match matchSvgAt (c :: cs) with
    | some (tag, rest) => some ([], tag, rest)
    | none => (findSvgSplit cs).map (fun q => (c :: q.1, q.2.1, q.2.2))

namespace Svg

/-- Error taxonomy of the SVG codec paths: the first four constructors
are `SVGMetadataError` (the spec's FormatError); `jsonError` models
`json.JSONDecodeError`, which is not a FormatError. -/
inductive Err where
  | notUtf8 : Err
  | noRoot : Err
  | noMetadata : Err
  | emptyBlock : Err
  | jsonError : Err
deriving DecidableEq

/-- Opening tag of the freshly inserted metadata element
(`<metadata id="refig">`). -/
def metaOpenIns : List Char := "<metadata id=".data ++ ('"' :: ("refig".data ++ ['"', '>']))

/-- Full inserted fragment
(`"\n  <metadata id=\"refig\">" + escaped + "</metadata>\n"`). -/
def insFragment (escaped : List Char) : List Char :=
  '\n' :: ' ' :: ' ' :: (metaOpenIns ++ (escaped ++ (closePat ++ ['\n'])))

/-- Text-level part of `embed_metadata`: replace the body of an
existing matched element, or insert a fresh element right after the
root tag. -/
def embedText (text : List Char) (payload : List Char) : Except Err (List Char) :=
  let escaped := escapeHtml payload
  match findMetaSplit text with
  | some mm => .ok (mm.pre ++ (mm.openTag ++ (escaped ++ mm.tail)))
  | none =>
    match findSvgSplit text with
    | none => .error .noRoot
    | some (pre, tag, post) => .ok (pre ++ (tag ++ (insFragment escaped ++ post)))

/-- Model of `embed_metadata`: decode UTF-8, serialize the record,
escape, splice, re-encode. -/
def embed_metadata (svg : List Nat) (metadata : Json) : Except Err (List Nat) :=
  match decodeUtf8 svg with
  | none => .error .notUtf8
  | some text => (embedText text (dumpsJson metadata)).map encodeUtf8

/-- Model of `extract_metadata`: decode, find the element, unescape and
strip the body, reject empty payloads, parse JSON. -/
def extract_metadata (svg : List Nat) : Except Err Json :=
  match decodeUtf8 svg with
  | none => .error .notUtf8
  | some text =>
    match findMetaSplit text with
    | none => .error .noMetadata
    | some mm =>
      let payload := pyStrip (pyUnescape mm.body)
      if payload.isEmpty then .error .emptyBlock
      else
        match loads payload with
        | none => .error .jsonError
        | some v => .ok v

/-- FormatError classifier for SVG extraction results: exactly the
`SVGMetadataError` outcomes. -/
def isFormatError : Except Err Json → Bool
  | .error .notUtf8 => true
  | .error .noRoot => true
  | .error .noMetadata => true
  | .error .emptyBlock => true
  | _ => false

/-- Bounded check that no suffix of the text begins with the
case-insensitive literal `<metadata` (so the pattern cannot occur
anywhere). -/
def noMetaOccB : List Char → Bool
  | [] => true
  | c :: cs => !ciIsPrefix metaPat (c :: cs) && noMetaOccB cs

/-- Exactly-one-block observation: a leftmost match exists and no
further match occurs past its closing tag. -/
def uniqueMeta (text : List Char) : Bool :=
  match findMetaSplit text with
  | none => false
  | some mm => (findMetaSplit (mm.tail.drop 11)).isNone

end Svg

/-! ### Datetime model

Model of the `datetime` values and methods `_core.py` uses:
`isoformat`, `strftime("%Y%m%dT%H%M%S")`, and `fromisoformat`
restricted to the extended ISO-8601 profile
`YYYY-MM-DD[<sep>HH:MM[:SS[.ffffff]][Z|±HH:MM]]` (Python 3.11 also
accepts the basic profile without separators; nothing in this
development produces or depends on that fringe). -/

structure PyDateTime where
  year : Nat
  month : Nat
  day : Nat
  hour : Nat
  minute : Nat
  second : Nat
  micro : Nat
  tzOffMinutes : Option Int
deriving DecidableEq

/-- Zero-padded two-digit decimal field. -/
def pad2 (n : Nat) : List Char :=
  List.replicate (2 - (natChars n).length) '0' ++ natChars n

/-- Zero-padded four-digit decimal field. -/
def pad4 (n : Nat) : List Char :=
  List.replicate (4 - (natChars n).length) '0' ++ natChars n

/-- Zero-padded six-digit decimal field. -/
def pad6 (n : Nat) : List Char :=
  List.replicate (6 - (natChars n).length) '0' ++ natChars n

/-- Model of `datetime.isoformat()`: microseconds omitted when zero, a
`±HH:MM` offset appended for aware values. -/
def isoformat (t : PyDateTime) : List Char :=
  pad4 t.year ++ ('-' :: pad2 t.month) ++ ('-' :: pad2 t.day) ++ ('T' :: pad2 t.hour) ++
    (':' :: pad2 t.minute) ++ (':' :: pad2 t.second) ++
    (if t.micro = 0 then [] else '.' :: pad6 t.micro) ++
    (match t.tzOffMinutes with
     | none => []
     | some off =>
       (if off < 0 then '-' else '+') :: (pad2 (off.natAbs / 60) ++ (':' :: pad2 (off.natAbs % 60))))

/-- Model of `strftime("%Y%m%dT%H%M%S")`: the wall-clock fields of the
value itself, with no time-zone conversion. -/
def tsToken (t : PyDateTime) : List Char :=
  pad4 t.year ++ pad2 t.month ++ pad2 t.day ++ ('T' :: (pad2 t.hour ++ pad2 t.minute ++ pad2 t.second))

/-- Two decimal digits. -/
def parse2 : List Char → Option (Nat × List Char)
  | a :: b :: r =>
    if a.isDigit && b.isDigit then some (digitVal a * 10 + digitVal b, r) else none
  | _ => none

/-- Four decimal digits. -/
def parse4 : List Char → Option (Nat × List Char)
  | a :: b :: c :: d :: r =>
    if a.isDigit && b.isDigit && c.isDigit && d.isDigit then
      some (((digitVal a * 10 + digitVal b) * 10 + digitVal c) * 10 + digitVal d, r)
    else none
  | _ => none

/-- One expected literal character. -/
def expectChar (c : Char) : List Char → Option (List Char)
  | x :: r => if x = c then some r else none
  | [] => none

/-- Gregorian leap-year test. -/
def isLeap (y : Nat) : Bool :=
  y % 4 = 0 && (y % 100 ≠ 0 || y % 400 = 0)

/-- Days in a calendar month. -/
def daysInMonth (y m : Nat) : Nat :=
  if m = 2 then (if isLeap y then 29 else 28)
  else if m = 4 ∨ m = 6 ∨ m = 9 ∨ m = 11 then 30
  else 31

/-- Optional trailing UTC-offset part of an ISO string (`Z`, `z` or
`±HH:MM`), completing the datetime. -/
def parseOff (y mo d hh mi ss us : Nat) : List Char → Option PyDateTime
  | [] => some ⟨y, mo, d, hh, mi, ss, us, none⟩
  | c :: r =>
    if c = 'Z' ∨ c = 'z' then
      if r = [] then some ⟨y, mo, d, hh, mi, ss, us, some 0⟩ else none
    else if c = '+' ∨ c = '-' then
      match parse2 r with
      | none => none
      | some (oh, r1) =>
        match expectChar ':' r1 with
        | none => none
        | some r2 =>
          match parse2 r2 with
          | none => none
          | some (om, r3) =>
            if oh ≤ 23 ∧ om ≤ 59 ∧ r3 = [] then
              some ⟨y, mo, d, hh, mi, ss, us,
                some ((if c = '-' then (-1 : Int) else 1) * ((oh * 60 + om : Nat) : Int))⟩
            else none
    else none

/-- Optional fractional-seconds part (a dot followed by one to six
digits), then the offset part. -/
def pyFrac (y mo d hh mi ss : Nat) : List Char → Option PyDateTime
  | [] => parseOff y mo d hh mi ss 0 []
  | c :: r11 =>
    if c = '.' then
      if 1 ≤ (r11.takeWhile Char.isDigit).length ∧
          (r11.takeWhile Char.isDigit).length ≤ 6 then
        parseOff y mo d hh mi ss
          (charsVal (r11.takeWhile Char.isDigit) *
            10 ^ (6 - (r11.takeWhile Char.isDigit).length))
          (r11.dropWhile Char.isDigit)
      else none
    else parseOff y mo d hh mi ss 0 (c :: r11)

/-- Optional seconds part (a colon followed by two digits), then the
fraction and offset parts. -/
def pySec (y mo d hh mi : Nat) : List Char → Option PyDateTime
  | [] => parseOff y mo d hh mi 0 0 []
  | c :: r9 =>
    if c = ':' then
      match parse2 r9 with
      | none => none
      | some (ss, r10) => if ss ≤ 59 then pyFrac y mo d hh mi ss r10 else none
    else parseOff y mo d hh mi 0 0 (c :: r9)

/-- Optional time-of-day part after the date. -/
def pyTime (y mo d : Nat) : List Char → Option PyDateTime
  | [] => some ⟨y, mo, d, 0, 0, 0, 0, none⟩
  | sep :: r5 =>
    if sep = 'T' ∨ sep = 't' ∨ sep = ' ' then
      match parse2 r5 with
      | none => none
      | some (hh, r6) =>
        match expectChar ':' r6 with
        | none => none
        | some r7 =>
          match parse2 r7 with
          | none => none
          | some (mi, r8) =>
            if hh ≤ 23 ∧ mi ≤ 59 then pySec y mo d hh mi r8 else none
    else none

/-- Model of `datetime.fromisoformat` on the extended profile. -/
def pyFromIso (s : List Char) : Option PyDateTime :=
  match parse4 s with
  | none => none
  | some (y, r0) =>
    match expectChar '-' r0 with
    | none => none
    | some r1 =>
      match parse2 r1 with
      | none => none
      | some (mo, r2) =>
        match expectChar '-' r2 with
        | none => none
        | some r3 =>
          match parse2 r3 with
          | none => none
          | some (d, r4) =>
            if 1 ≤ y ∧ 1 ≤ mo ∧ mo ≤ 12 ∧ 1 ≤ d ∧ d ≤ daysInMonth y mo then
              pyTime y mo d r4
            else none

/-! ### Core (`src/refig/_core.py`) -/

namespace Core

/-- ASCII `str.isalnum` (Python's test also admits non-ASCII
alphanumerics; none occur in the values this development states claims
about). -/
def isAlnumB (c : Char) : Bool := c.isAlphanum

/-- Model of `_format_timestamp_token` applied to a JSON value read
from the record with `metadata.get("created_at")`.  The
`isinstance(value, datetime)` branch of the source cannot receive a
JSON value and is not representable here; all non-string values take
the final current-time branch, exactly as in the source.  The
`tzinfo` replacement the source performs does not alter the formatted
fields, so the success branch formats the parsed fields directly. -/
def formatTimestampToken (now : PyDateTime) (value : Option Json) : List Char :=
  match value with
  | some (.str s) =>
    match pyFromIso s with
    | some t => tsToken t
    | none =>
      let sanitized := s.filter isAlnumB
      if sanitized.isEmpty then tsToken now else sanitized
  | _ => tsToken now

/-- Model of `_format_git_hash` applied to
`metadata.get("git_commit")`. -/
def formatGitHash (value : Option Json) : List Char :=
  match value with
  | some (.str s) =>
    if s.isEmpty then "nogit".data
    else (if (pyStrip s).isEmpty then "nogit".data else pyStrip s).take 7
  | _ => "nogit".data

/-- Last path component (`Path(name).name`). -/
def basename (s : List Char) : List Char :=
  (s.reverse.takeWhile (· ≠ '/')).reverse

/-- Model of `Path(name).suffix`: from the last dot of the final
component, provided that dot is neither its first nor its last
character. -/
def pathSuffix (s : List Char) : List Char :=
  let name := basename s
  match findChar '.' name.reverse with
  | none => []
  | some j =>
    if j = 0 ∨ j = name.length - 1 then []
    else (name.reverse.take (j + 1)).reverse

/-- Model of `Path(name).stem`: final component without its suffix. -/
def pathStem (s : List Char) : List Char :=
  let name := basename s
  name.take (name.length - (pathSuffix s).length)

/-- ASCII lower-casing of a string (`str.lower` on the extensions in
play). -/
def lowerStr (s : List Char) : List Char := s.map lowerC

/-- Optional best-effort metadata sources, modelling the external
collaborators behind `_infer_source_path`, `_infer_cell_number`,
`_infer_git_commit` and `_get_refig_version`: each yields `some` value
or `none` when undeterminable. -/
structure Providers where
  sourcePath : Option (List Char)
  cellNumber : Option Int
  gitCommit : Option (List Char)
  refigVersion : Option (List Char)

/-- In-place update of one key (`dict.__setitem__` keeps the position
of an existing key and appends a new one). -/
def setKey : List (List Char × Json) → List Char → Json → List (List Char × Json)
  | [], k, v => [(k, v)]
  | (k0, v0) :: r, k, v =>
    if k0 = k then (k0, v) :: r else (k0, v0) :: setKey r k v

/-- Model of `dict.update`. -/
def pyUpdate (d : List (List Char × Json)) : List (List Char × Json) → List (List Char × Json)
  | [] => d
  | (k, v) :: r => pyUpdate (setKey d k v) r

/-- Model of `dict.get`: the value of the first (only) binding of the
key. -/
def getKey (d : List (List Char × Json)) (k : List Char) : Option Json :=
  (d.find? (fun p => p.1 = k)).map Prod.snd

/-- Model of `_build_metadata`: the fixed six keys in source order,
optional sources contributing `null` (Python `None`) when
undeterminable, and caller extras merged last via `dict.update`. -/
def buildMetadata (name : List Char) (now : PyDateTime) (prov : Providers)
    (extra : Option (List (List Char × Json))) : List (List Char × Json) :=
  let base : List (List Char × Json) :=
    [("figure".data, .str (basename name)),
     ("created_at".data, .str (isoformat now)),
     ("source".data, match prov.sourcePath with | none => .null | some p => .str p),
     ("cell_number".data, match prov.cellNumber with | none => .null | some n => .num n),
     ("git_commit".data, match prov.gitCommit with | none => .null | some g => .str g),
     ("refig_version".data, match prov.refigVersion with | none => .null | some v => .str v)]
  match extra with
  | none => base
  | some ex => pyUpdate base ex

/-- Model of `_build_history_path`. -/
def buildHistoryPath (name : List Char) (md : List (List Char × Json)) (now : PyDateTime) :
    List Char :=
  let stem := pathStem name
  let ts := formatTimestampToken now (getKey md "created_at".data)
  let gh := formatGitHash (getKey md "git_commit".data)
  let suffix0 := lowerStr (pathSuffix name)
  let suffix := if suffix0 = ".png".data ∨ suffix0 = ".svg".data then suffix0 else ".png".data
  "figures/history/".data ++ (stem ++ ('/' :: ('_' :: (ts ++ ('_' :: (gh ++ suffix))))))

/-- Save-path error taxonomy: `unsupportedFormat` models the
`ValueError` for a bad extension (the spec's UnsupportedFormatError),
`embeddingFailure` the `RuntimeError` wrapping a codec FormatError
(the spec's EmbeddingFailure). -/
inductive SaveErr where
  | unsupportedFormat : SaveErr
  | embeddingFailure : SaveErr
deriving DecidableEq

/-- Filesystem state as a write log; the first binding of a path is its
current content. -/
def FileSys := List (List Char × List Nat)

/-- Model of `_write_bytes` (directory creation has no observable
effect on file contents). -/
def fsWrite (fs : FileSys) (p : List Char) (b : List Nat) : FileSys :=
  (p, b) :: fs

/-- Content of a path, if any write has reached it. -/
def fsRead (fs : FileSys) (p : List Char) : Option (List Nat) :=
  (fs.find? (fun e => e.1 = p)).map Prod.snd

structure SaveResult where
  latest_path : List Char
  history_path : List Char
  metadata : List (List Char × Json)

/-- Model of `savefig`.  Rendering is the external collaborator
(`_resolve_figure` / `_render_figure`); its output is the `rendered`
byte-string parameter, and `now` is the UTC clock reading
`_build_metadata` takes.  The filesystem is threaded explicitly so
that early failures demonstrably leave it untouched. -/
def savefig (name : List Char) (rendered : List Nat) (now : PyDateTime) (prov : Providers)
    (extra : Option (List (List Char × Json))) (fs : FileSys) :
    Except SaveErr SaveResult × FileSys :=
  let suffix := lowerStr (pathSuffix name)
  if suffix = ".png".data ∨ suffix = ".svg".data then
    let md := buildMetadata name now prov extra
    let embedded : Except SaveErr (List Nat) :=
      if suffix = ".png".data then
        match Png.embed_metadata rendered (.obj md) with
        | .ok b => .ok b
        | .error _ => .error .embeddingFailure
      else
        match Svg.embed_metadata rendered (.obj md) with
        | .ok b => .ok b
        | .error _ => .error .embeddingFailure
    match embedded with
    | .error e => (.error e, fs)
    | .ok bytes =>
      let latest := "figures/latest/".data ++ basename name
      let history := buildHistoryPath name md now
      (.ok ⟨latest, history, md⟩, fsWrite (fsWrite fs latest bytes) history bytes)
  else (.error .unsupportedFormat, fs)

end Core

/-! ### Claim-side definitions

Functions written from the specification's words, used to compare the
spec's statements against the source models above. -/

/-- Days since 0000-03-01 of a civil date (valid for `year ≥ 1`),
Hinnant's `days_from_civil`. -/
def daysFromCivilN (y m d : Nat) : Nat :=
  let y2 := if m ≤ 2 then y - 1 else y
  let era := y2 / 400
  let yoe := y2 % 400
  let mp := (m + 9) % 12
  let doy := (153 * mp + 2) / 5 + d - 1
  let doe := yoe * 365 + yoe / 4 - yoe / 100 + doy
  era * 146097 + doe

/-- Civil date of a day count since 0000-03-01, Hinnant's
`civil_from_days`. -/
def civilFromDaysN (z : Nat) : Nat × Nat × Nat :=
  let era := z / 146097
  let doe := z % 146097
  let yoe := (doe - doe / 1460 + doe / 36524 - doe / 146096) / 365
  let y := yoe + era * 400
  let doy := doe - (365 * yoe + yoe / 4 - yoe / 100)
  let mp := (5 * doy + 2) / 153
  let d := doy - (153 * mp + 2) / 5 + 1
  let m := if mp < 10 then mp + 3 else mp - 9
  (if m ≤ 2 then y + 1 else y, m, d)

/-- Spec-side reading of the timestamp token for an aware parsed value:
the instant converted to UTC, then formatted `YYYYMMDDThhmmss`
("format as YYYYMMDDThhmmss in UTC"). -/
def specUtcToken (t : PyDateTime) : List Char :=
  match t.tzOffMinutes with
  | none => tsToken t
  | some off =>
    let total : Int :=
      ((daysFromCivilN t.year t.month t.day * 1440 + t.hour * 60 + t.minute : Nat) : Int) - off
    let totN := total.toNat
    let ymd := civilFromDaysN (totN / 1440)
    tsToken ⟨ymd.1, ymd.2.1, ymd.2.2, totN % 1440 / 60, totN % 1440 % 60, t.second, t.micro, some 0⟩

/-- Spec-side timestamp token exactly as claim C3 words it: parseable
strings are formatted in UTC; unparseable strings are stripped to their
alphanumerics with a current-time fallback when empty. -/
def specTimestampToken (now : PyDateTime) (value : Option Json) : List Char :=
  match value with
  | some (.str s) =>
    match pyFromIso s with
    | some t => specUtcToken t
    | none =>
      let sanitized := s.filter Core.isAlnumB
      if sanitized.isEmpty then tsToken now else sanitized
  | _ => tsToken now

/-- Spec-side revision token as claim C8 words it: trimmed and
truncated to seven characters, the literal `nogit` when absent or
empty after trimming. -/
def specRevToken : Option (List Char) → List Char
  | none => "nogit".data
  | some s => if (pyStrip s).isEmpty then "nogit".data else (pyStrip s).take 7

/-- Well-formedness of a datetime value for the isoformat round trip:
calendar-valid fields within Python's `datetime` ranges. -/
def dtWF (t : PyDateTime) : Bool :=
  1 ≤ t.year && t.year ≤ 9999 && 1 ≤ t.month && t.month ≤ 12 &&
    1 ≤ t.day && t.day ≤ daysInMonth t.year t.month &&
    t.hour ≤ 23 && t.minute ≤ 59 && t.second ≤ 59 && t.micro ≤ 999999

namespace Png

/-- Claim-side observation of what the extraction scan meets first:
clean end of stream, a truncated length field, a text chunk with an
empty keyword, a text chunk with undecodable text, or the reserved
block. -/
inductive ScanStatus where
  | cleanEnd : ScanStatus
  | truncated : ScanStatus
  | emptyKeyword : ScanStatus
  | badText : ScanStatus
  | refigFound : ScanStatus
deriving DecidableEq

/-- Scan-status observation over the chunk stream after the signature. -/
def scanStatus (rem : List Nat) : ScanStatus :=
  if (rem.take 4).isEmpty then .cleanEnd
  else if (rem.take 4).length < 4 then .truncated
  else
    let len := be32 (rem.take 4)
    let ty := (rem.drop 4).take 4
    let da := (rem.drop 8).take len
    if ty = tEXtType then
      if (splitNull da).1.isEmpty then .emptyKeyword
      else
        match decodeUtf8 (splitNull da).2 with
        | none => .badText
        | some _ =>
          if (splitNull da).1 = refigKeyword then .refigFound
          else scanStatus (rem.drop (12 + len))
    else scanStatus (rem.drop (12 + len))
termination_by rem.length
decreasing_by
  all_goals
    rename_i hne _
    have h1 : rem ≠ [] := by
      intro h
      rw [h] at hne
      simp at hne
    have h2 : 0 < rem.length := List.length_pos.mpr h1
    simp only [List.length_drop]
    omega

/-- Result classifier matching the scan-status observation: each
non-FormatError exception and the success/JSON-error pair map to the
scan event that produces them. -/
def resStatus : Except Err Json → ScanStatus
  | .error .noMetadata => .cleanEnd
  | .error .structError => .truncated
  | .error .invalidTextChunk => .emptyKeyword
  | .error .unicodeError => .badText
  | _ => .refigFound

end Png

/-- Claim-side condition for a markup FormatError: undecodable bytes, a
missing metadata element, or a body empty after unescaping and
stripping. -/
def svgFormatErrCond (svg : List Nat) : Bool :=
  match decodeUtf8 svg with
  | none => true
  | some text =>
    match findMetaSplit text with
    | none => true
    | some mm => (pyStrip (pyUnescape mm.body)).isEmpty

/-- Claim-side condition for a raster FormatError: a missing signature,
a scan that ends without meeting the reserved block, or a scan that
meets an empty-keyword text chunk first. -/
def pngFormatErrCond (png : List Nat) : Bool :=
  !pngSig.isPrefixOf png ||
    (Png.scanStatus (png.drop 8) == Png.ScanStatus.cleanEnd) ||
    (Png.scanStatus (png.drop 8) == Png.ScanStatus.emptyKeyword)

/-! ### Concrete inputs used by counterexamples and witnesses -/

/-- Record with a single member, used as a generic small mapping. -/
def cJson1 : Json := .obj [(['a'], .num 1)]

/-- A second, distinct small mapping. -/
def cJson2 : Json := .obj [(['b'], .num 2)]

/-- A well-formed SVG document whose leading XML comment contains an
unclosed metadata-element lookalike:
`<!-- <metadata id="refig"> --><svg></svg>`. -/
def badSvgT : List Char :=
  "<!".data ++ (['-', '-'] ++ (" <metadata id=".data ++ (['"'] ++ ("refig".data ++
    (['"', '>', ' '] ++ (['-', '-'] ++ "><svg></svg>".data))))))

/-- UTF-8 bytes of `badSvgT`. -/
def badSvgBytes : List Nat := encodeUtf8 badSvgT

/-- A signature-only PNG byte string (all codec paths only require the
signature). -/
def sigOnlyPng : List Nat := pngSig

/-- A PNG containing first a `tEXt` chunk whose data is the single
separator byte (empty keyword, empty text), then a proper reserved
metadata block holding `\x7b\x7d`. -/
def emptyKwPng : List Nat :=
  pngSig ++ (Png.buildTextChunk [] [] ++
    Png.buildTextChunk refigKeyword (encodeUtf8 (dumpsJson (Json.obj []))))

/-- Result of embedding `cJson1` into the signature-only PNG. -/
def pngOnce : List Nat :=
  pngSig ++ (Png.buildTextChunk refigKeyword (encodeUtf8 (dumpsJson cJson1)) ++ [])

/-- Result of embedding `cJson2` into `pngOnce`. -/
def pngTwice : List Nat :=
  pngSig ++ (Png.buildTextChunk refigKeyword (encodeUtf8 (dumpsJson cJson2)) ++
    (Png.buildTextChunk refigKeyword (encodeUtf8 (dumpsJson cJson1)) ++ []))

/-- A fixed aware clock reading used by concrete instances. -/
def now0 : PyDateTime := ⟨2024, 1, 1, 0, 0, 0, 0, some 0⟩

/-- Providers with every optional source undeterminable. -/
def prov0 : Core.Providers := ⟨none, none, none, none⟩

/-- A minimal well-formed SVG document. -/
def goodSvgT : List Char := "<svg></svg>".data

/-- UTF-8 bytes of `goodSvgT`. -/
def goodSvgBytes : List Nat := encodeUtf8 goodSvgT

/-- Result of embedding `cJson1` and then `cJson2` into `goodSvgBytes`
(the error fallback is never reached). -/
def svgTwice : List Nat :=
  match (Svg.embed_metadata goodSvgBytes cJson1).bind
      (fun b => Svg.embed_metadata b cJson2) with
  | .ok o => o
  | .error _ => []

/-- Result of a concrete `savefig` call on `plot.png`. -/
def save0 : Except Core.SaveErr Core.SaveResult × Core.FileSys :=
  Core.savefig "plot.png".data sigOnlyPng now0 prov0 none []

/-- The record `save0` returns (the error fallback is never reached). -/
def res0 : Core.SaveResult :=
  match save0.1 with
  | .ok r => r
  | .error _ => ⟨[], [], []⟩

/-- Result of a concrete `savefig` call on `plot.PNG`. -/
def saveP0 : Except Core.SaveErr Core.SaveResult × Core.FileSys :=
  Core.savefig "plot.PNG".data sigOnlyPng now0 prov0 none []

/-- The record `saveP0` returns (the error fallback is never reached). -/
def resP0 : Core.SaveResult :=
  match saveP0.1 with
  | .ok r => r
  | .error _ => ⟨[], [], []⟩

/-! ## Proofs -/

/-! ### Character and digit basics -/

theorem char_isValid (c : Char) : c.toNat.isValidChar := c.valid

theorem toNat_ofNat_valid {n : Nat} (h : n.isValidChar) : (Char.ofNat n).toNat = n := by
  simp only [Char.ofNat, dif_pos h, Char.ofNatAux, Char.toNat, UInt32.toNat]
  simp [BitVec.toNat_ofNatLt]

theorem digitCh_isDigit {d : Nat} (h : d < 10) : (digitCh d).isDigit = true := by
  interval_cases d <;> decide

theorem digitVal_digitCh {d : Nat} (h : d < 10) : digitVal (digitCh d) = d := by
  interval_cases d <;> decide

theorem hexVal_hexDigit {d : Nat} (h : d < 16) : hexVal (hexDigit d) = some d := by
  interval_cases d <;> decide

/-! ### Decimal digit strings -/

theorem natCharsAux_acc (fuel : Nat) : ∀ (n : Nat) (acc : List Char),
    natCharsAux fuel n acc = natCharsAux fuel n [] ++ acc := by
  induction fuel with
  | zero => intro n acc; simp [natCharsAux]
  | succ f ih =>
    intro n acc
    simp only [natCharsAux]
    by_cases h : n < 10
    · simp [h]
    · simp only [if_neg h]
      rw [ih (n / 10) (digitCh (n % 10) :: acc), ih (n / 10) [digitCh (n % 10)]]
      simp

theorem natCharsAux_extra : ∀ (n f1 f2 : Nat), n < f1 → n < f2 →
    natCharsAux f1 n [] = natCharsAux f2 n [] := by
  intro n
  induction n using Nat.strong_induction_on with
  | _ n ih =>
    intro f1 f2 h1 h2
    match f1, f2 with
    | g1 + 1, g2 + 1 =>
      simp only [natCharsAux]
      by_cases h : n < 10
      · simp [h]
      · simp only [if_neg h]
        rw [natCharsAux_acc g1, natCharsAux_acc g2,
          ih (n / 10) (Nat.div_lt_self (by omega) (by omega)) g1 g2 (by omega) (by omega)]

theorem natChars_eq (n : Nat) :
    natChars n = if n < 10 then [digitCh n] else natChars (n / 10) ++ [digitCh (n % 10)] := by
  by_cases h : n < 10
  · simp [natChars, natCharsAux, h]
  · have step : natChars n = natCharsAux n (n / 10) [digitCh (n % 10)] := by
      show natCharsAux (n + 1) n [] = _
      simp only [natCharsAux, if_neg h]
    rw [if_neg h, step, natCharsAux_acc n]
    congr 1
    exact natCharsAux_extra (n / 10) n (n / 10 + 1)
      (Nat.lt_of_lt_of_le (Nat.div_lt_self (by omega) (by omega)) (by omega)) (by omega)

theorem natChars_ne_nil (n : Nat) : natChars n ≠ [] := by
  rw [natChars_eq]
  by_cases h : n < 10 <;> simp [h]

theorem natChars_all_digit : ∀ (n : Nat), ∀ c ∈ natChars n, c.isDigit = true := by
  intro n
  induction n using Nat.strong_induction_on with
  | _ n ih =>
    intro c hc
    rw [natChars_eq] at hc
    by_cases h : n < 10
    · rw [if_pos h] at hc
      simp at hc
      subst hc
      exact digitCh_isDigit h
    · rw [if_neg h] at hc
      rcases List.mem_append.mp hc with h1 | h2
      · exact ih (n / 10) (Nat.div_lt_self (by omega) (by omega)) c h1
      · simp at h2
        subst h2
        exact digitCh_isDigit (Nat.mod_lt _ (by omega))

theorem charsVal_append_one (xs : List Char) (c : Char) :
    charsVal (xs ++ [c]) = 10 * charsVal xs + digitVal c := by
  simp [charsVal, List.foldl_append]
  omega

theorem charsVal_natChars : ∀ (n : Nat), charsVal (natChars n) = n := by
  intro n
  induction n using Nat.strong_induction_on with
  | _ n ih =>
    rw [natChars_eq]
    by_cases h : n < 10
    · simp [if_pos h, charsVal, digitVal_digitCh h]
    · rw [if_neg h, charsVal_append_one,
        ih (n / 10) (Nat.div_lt_self (by omega) (by omega)),
        digitVal_digitCh (Nat.mod_lt _ (by omega))]
      omega

/-! ### takeWhile and dropWhile over appends -/

theorem takeWhile_append_all {α : Type} (p : α → Bool) :
    ∀ (xs ys : List α), (∀ x ∈ xs, p x = true) →
      (xs ++ ys).takeWhile p = xs ++ ys.takeWhile p := by
  intro xs ys h
  induction xs with
  | nil => simp
  | cons a t ih =>
    have ha : p a = true := h a (by simp)
    simp only [List.cons_append, List.takeWhile_cons, ha, if_true]
    rw [ih (fun x hx => h x (by simp [hx]))]

theorem dropWhile_append_all {α : Type} (p : α → Bool) :
    ∀ (xs ys : List α), (∀ x ∈ xs, p x = true) →
      (xs ++ ys).dropWhile p = ys.dropWhile p := by
  intro xs ys h
  induction xs with
  | nil => simp
  | cons a t ih =>
    have ha : p a = true := h a (by simp)
    simp only [List.cons_append, List.dropWhile_cons, ha, if_true]
    exact ih (fun x hx => h x (by simp [hx]))

theorem takeWhile_nil_of_boundary {l : List Char} (h : numBoundaryB l = true) :
    l.takeWhile Char.isDigit = [] := by
  cases l with
  | nil => rfl
  | cons c t =>
    simp only [numBoundaryB, Bool.not_eq_true'] at h
    simp [List.takeWhile_cons, h]

theorem dropWhile_id_of_boundary {l : List Char} (h : numBoundaryB l = true) :
    l.dropWhile Char.isDigit = l := by
  cases l with
  | nil => rfl
  | cons c t =>
    simp only [numBoundaryB, Bool.not_eq_true'] at h
    simp [List.dropWhile_cons, h]

theorem parseNatNum_natChars (n : Nat) (rest : List Char) (hb : numBoundaryB rest = true) :
    parseNatNum (natChars n ++ rest) = some (n, rest) := by
  unfold parseNatNum
  rw [takeWhile_append_all _ _ _ (natChars_all_digit n),
    dropWhile_append_all _ _ _ (natChars_all_digit n),
    takeWhile_nil_of_boundary hb, dropWhile_id_of_boundary hb]
  simp [List.isEmpty_eq_false.mpr (natChars_ne_nil n), charsVal_natChars]

/-! ### String escape round trip -/

theorem parseStrBody_escChar (c : Char) (hbmp : c.toNat < 0x10000) (t : List Char) :
    parseStrBody (escChar c ++ t) = (parseStrBody t).map (fun p => (c :: p.1, p.2)) := by
  by_cases h1 : c = '"'
  · subst h1
    show parseStrBody ('\\' :: '"' :: t) = _
    rw [parseStrBody.eq_def]
    simp [unescChar]
  by_cases h2 : c = '\\'
  · subst h2
    show parseStrBody ('\\' :: '\\' :: t) = _
    rw [parseStrBody.eq_def]
    simp [unescChar]
  by_cases h3 : c = '\n'
  · subst h3
    show parseStrBody ('\\' :: 'n' :: t) = _
    rw [parseStrBody.eq_def]
    simp [unescChar]
  by_cases h4 : c = '\r'
  · subst h4
    show parseStrBody ('\\' :: 'r' :: t) = _
    rw [parseStrBody.eq_def]
    simp [unescChar]
  by_cases h5 : c = '\t'
  · subst h5
    show parseStrBody ('\\' :: 't' :: t) = _
    rw [parseStrBody.eq_def]
    simp [unescChar]
  by_cases h6 : c = Char.ofNat 8
  · subst h6
    show parseStrBody ('\\' :: 'b' :: t) = _
    rw [parseStrBody.eq_def]
    simp [unescChar]
  by_cases h7 : c = Char.ofNat 12
  · subst h7
    show parseStrBody ('\\' :: 'f' :: t) = _
    rw [parseStrBody.eq_def]
    simp [unescChar]
  by_cases h8 : 0x20 ≤ c.toNat ∧ c.toNat ≤ 0x7e
  · have hesc : escChar c = [c] := by
      simp [escChar, h1, h2, h3, h4, h5, h6, h7, h8]
    rw [hesc, List.cons_append, List.nil_append, parseStrBody.eq_def]
    simp [h1, h2]
  · have hesc : escChar c ++ t = '\\' :: 'u' :: hexDigit (c.toNat / 4096 % 16) ::
        hexDigit (c.toNat / 256 % 16) :: hexDigit (c.toNat / 16 % 16) ::
        hexDigit (c.toNat % 16) :: t := by
      simp [escChar, h1, h2, h3, h4, h5, h6, h7, h8, hbmp, hex4]
    have e1 : hexVal (hexDigit (c.toNat / 4096 % 16)) = some (c.toNat / 4096 % 16) :=
      hexVal_hexDigit (Nat.mod_lt _ (by omega))
    have e2 : hexVal (hexDigit (c.toNat / 256 % 16)) = some (c.toNat / 256 % 16) :=
      hexVal_hexDigit (Nat.mod_lt _ (by omega))
    have e3 : hexVal (hexDigit (c.toNat / 16 % 16)) = some (c.toNat / 16 % 16) :=
      hexVal_hexDigit (Nat.mod_lt _ (by omega))
    have e4 : hexVal (hexDigit (c.toNat % 16)) = some (c.toNat % 16) :=
      hexVal_hexDigit (Nat.mod_lt _ (by omega))
    have hrec : c.toNat / 4096 % 16 * 4096 + c.toNat / 256 % 16 * 256 +
        c.toNat / 16 % 16 * 16 + c.toNat % 16 = c.toNat := by omega
    have hval : c.toNat < 0xd800 ∨ 0xe000 ≤ c.toNat := by
      have hv : c.toNat < 0xd800 ∨ (0xdfff < c.toNat ∧ c.toNat < 0x110000) := c.valid
      omega
    rw [hesc, parseStrBody.eq_def]
    simp only [e1, e2, e3, e4]
    simp only [hrec]
    rw [if_pos hval]
    simp [Char.ofNat_toNat]

theorem parseStrBody_escString (s : List Char) (h : ∀ c ∈ s, c.toNat < 0x10000)
    (rest : List Char) :
    parseStrBody (escString s ++ ('"' :: rest)) = some (s, rest) := by
  induction s with
  | nil =>
    show parseStrBody ('"' :: rest) = some ([], rest)
    rw [parseStrBody.eq_def]
    simp
  | cons c cs ih =>
    have hc : c.toNat < 0x10000 := h c (by simp)
    calc parseStrBody (escString (c :: cs) ++ ('"' :: rest))
        = parseStrBody (escChar c ++ (escString cs ++ ('"' :: rest))) := by
          simp [escString, List.append_assoc]
      _ = (parseStrBody (escString cs ++ ('"' :: rest))).map (fun p => (c :: p.1, p.2)) :=
          parseStrBody_escChar c hc _
      _ = some (c :: cs, rest) := by
          rw [ih (fun x hx => h x (by simp [hx]))]
          rfl

/-! ### Sorted serialization shape -/

theorem strLtB_asymm : ∀ (a b : List Char), strLtB a b = true → strLtB b a = false := by
  intro a
  induction a with
  | nil =>
    intro b h
    cases b with
    | nil => simp [strLtB] at h
    | cons x xs => simp [strLtB]
  | cons x xs ih =>
    intro b h
    cases b with
    | nil => simp [strLtB] at h
    | cons y ys =>
      simp only [strLtB] at h ⊢
      by_cases h1 : x.toNat < y.toNat
      · rw [if_neg (by omega), if_pos h1]
      · by_cases h2 : y.toNat < x.toNat
        · rw [if_neg h1, if_pos h2] at h
          simp at h
        · rw [if_neg h1, if_neg h2] at h
          rw [if_neg h2, if_neg h1]
          exact ih ys h

theorem sortedFstB_tail {α : Type} {p : List Char × α} {l : List (List Char × α)}
    (h : sortedFstB (p :: l) = true) : sortedFstB l = true := by
  cases l with
  | nil => rfl
  | cons q r =>
    simp only [sortedFstB, Bool.and_eq_true] at h
    exact h.2

theorem sortedFstB_head {α : Type} {p q : List Char × α} {l : List (List Char × α)}
    (h : sortedFstB (p :: q :: l) = true) : strLtB p.1 q.1 = true := by
  simp only [sortedFstB, Bool.and_eq_true] at h
  exact h.1

theorem sortPairs_id : ∀ (l : List (List Char × List Char)), sortedFstB l = true →
    sortPairsByKey l = l := by
  intro l
  induction l with
  | nil => intro _; rfl
  | cons p ps ih =>
    intro h
    simp only [sortPairsByKey]
    rw [ih (sortedFstB_tail h)]
    cases ps with
    | nil => rfl
    | cons q qs =>
      simp only [insertPair]
      rw [strLtB_asymm _ _ (sortedFstB_head h)]
      simp

theorem sortedFstB_serMembs : ∀ (ms : List (List Char × Json)),
    sortedFstB (serMembs ms) = sortedFstB ms := by
  intro ms
  induction ms with
  | nil => rfl
  | cons p t ih =>
    obtain ⟨k, v⟩ := p
    cases t with
    | nil => rfl
    | cons q r =>
      obtain ⟨k2, v2⟩ := q
      simp only [serMembs, sortedFstB] at ih ⊢
      rw [ih]

theorem joinComma_serMembs : ∀ (ms : List (List Char × Json)),
    joinComma ((serMembs ms).map Prod.snd) = membsChars ms := by
  intro ms
  induction ms with
  | nil => rfl
  | cons p t ih =>
    obtain ⟨k, v⟩ := p
    cases t with
    | nil => rfl
    | cons q r =>
      obtain ⟨k2, v2⟩ := q
      simp only [serMembs, List.map_cons] at ih ⊢
      simp only [joinComma, membsChars]
      rw [ih]

theorem dumpsObj_sorted {ms : List (List Char × Json)} (h : sortedKeysB ms = true) :
    dumpsJson (.obj ms) = '{' :: (membsChars ms ++ ['}']) := by
  show '{' :: (joinComma ((sortPairsByKey (serMembs ms)).map Prod.snd) ++ ['}']) = _
  rw [sortPairs_id _ (by rw [sortedFstB_serMembs]; exact h), joinComma_serMembs]

/-! ### Head and last characters of serializer output -/

theorem natChars_head_digit (n : Nat) :
    ∃ c cs, natChars n = c :: cs ∧ c.isDigit = true := by
  obtain ⟨c, cs, h⟩ := List.exists_cons_of_ne_nil (natChars_ne_nil n)
  exact ⟨c, cs, h, natChars_all_digit n c (by rw [h]; simp)⟩

theorem dumps_head (v : Json) :
    ∃ c cs, dumpsJson v = c :: cs ∧
      (c = 'n' ∨ c = 't' ∨ c = 'f' ∨ c = '"' ∨ c = '[' ∨ c = '{' ∨ c = '-' ∨ c.isDigit = true) := by
  cases v with
  | null => exact ⟨'n', _, rfl, by simp⟩
  | bool b =>
    cases b with
    | false => exact ⟨'f', _, rfl, by simp⟩
    | true => exact ⟨'t', _, rfl, by simp⟩
  | num i =>
    show ∃ c cs, intChars i = c :: cs ∧ _
    unfold intChars
    by_cases hi : i < 0
    · rw [if_pos hi]
      exact ⟨'-', _, rfl, by simp⟩
    · rw [if_neg hi]
      obtain ⟨c, cs, h1, h2⟩ := natChars_head_digit i.toNat
      exact ⟨c, cs, h1, by simp [h2]⟩
  | str s => exact ⟨'"', _, rfl, by simp⟩
  | arr es => exact ⟨'[', _, rfl, by simp⟩
  | obj ms => exact ⟨'{', _, rfl, by simp⟩

theorem natChars_getLast_digit (n : Nat) :
    ∀ c, (natChars n).getLast? = some c → c.isDigit = true := by
  intro c hc
  exact natChars_all_digit n c (List.mem_of_getLast?_eq_some hc)

theorem getLast?_cons_concat {α : Type} (a : α) (xs : List α) (y : α) :
    (a :: (xs ++ [y])).getLast? = some y := by
  rw [show a :: (xs ++ [y]) = (a :: xs) ++ [y] by simp]
  exact List.getLast?_concat _

theorem isDigit_toNat {c : Char} (h : c.isDigit = true) : 48 ≤ c.toNat ∧ c.toNat ≤ 57 := by
  simp only [Char.isDigit, Bool.and_eq_true, decide_eq_true_eq] at h
  exact ⟨h.1, h.2⟩

theorem isDigit_ne {c : Char} (h : c.isDigit = true) :
    c ≠ 'n' ∧ c ≠ 't' ∧ c ≠ 'f' ∧ c ≠ '"' ∧ c ≠ '[' ∧ c ≠ '{' ∧ c ≠ '-' :=
  ⟨fun hc => absurd (hc ▸ h) (by decide), fun hc => absurd (hc ▸ h) (by decide),
   fun hc => absurd (hc ▸ h) (by decide), fun hc => absurd (hc ▸ h) (by decide),
   fun hc => absurd (hc ▸ h) (by decide), fun hc => absurd (hc ▸ h) (by decide),
   fun hc => absurd (hc ▸ h) (by decide)⟩

theorem isDigit_not_ws {c : Char} (h : c.isDigit = true) : isJsonWS c = false := by
  by_contra hw
  rw [Bool.not_eq_false] at hw
  simp only [isJsonWS, Bool.or_eq_true, decide_eq_true_eq] at hw
  rcases hw with ((rfl | rfl) | rfl) | rfl <;> exact absurd h (by decide)

theorem dumps_getLast (v : Json) :
    ∀ c, (dumpsJson v).getLast? = some c → isJsonWS c = false := by
  cases v with
  | null =>
    intro c hc
    have h : some 'l' = some c := hc
    injection h with h2
    subst h2
    decide
  | bool b =>
    cases b with
    | false =>
      intro c hc
      have h : some 'e' = some c := hc
      injection h with h2
      subst h2
      decide
    | true =>
      intro c hc
      have h : some 'e' = some c := hc
      injection h with h2
      subst h2
      decide
  | num i =>
    intro c hc
    have hi : dumpsJson (.num i) = intChars i := rfl
    rw [hi] at hc
    unfold intChars at hc
    by_cases hneg : i < 0
    · rw [if_pos hneg] at hc
      cases hgl : (natChars i.natAbs).getLast? with
      | none =>
        exact absurd (List.getLast?_eq_none_iff.mp hgl) (natChars_ne_nil _)
      | some c2 =>
        rw [show ('-' :: natChars i.natAbs) = ['-'] ++ natChars i.natAbs by simp,
          List.getLast?_append, hgl] at hc
        simp only [Option.or_some] at hc
        injection hc with h2
        subst h2
        exact isDigit_not_ws (natChars_getLast_digit _ _ hgl)
    · rw [if_neg hneg] at hc
      exact isDigit_not_ws (natChars_getLast_digit _ _ hc)
  | str s =>
    intro c hc
    rw [show dumpsJson (.str s) = '"' :: (escString s ++ ['"']) from rfl,
      getLast?_cons_concat] at hc
    injection hc with h2
    subst h2
    decide
  | arr es =>
    intro c hc
    rw [show dumpsJson (.arr es) = '[' :: (dumpsElems es ++ [']']) from rfl,
      getLast?_cons_concat] at hc
    injection hc with h2
    subst h2
    decide
  | obj ms =>
    intro c hc
    rw [show dumpsJson (.obj ms) =
        '{' :: (joinComma ((sortPairsByKey (serMembs ms)).map Prod.snd) ++ ['}']) from rfl,
      getLast?_cons_concat] at hc
    injection hc with h2
    subst h2
    decide

theorem stripWS_eq_self {l : List Char}
    (h1 : ∀ x, l.head? = some x → isJsonWS x = false)
    (h2 : ∀ x, l.getLast? = some x → isJsonWS x = false) : stripWS l = l := by
  unfold stripWS
  have e1 : l.dropWhile isJsonWS = l := by
    cases l with
    | nil => rfl
    | cons c t =>
      rw [List.dropWhile_cons, h1 c rfl]
      simp
  rw [e1]
  have e2 : l.reverse.dropWhile isJsonWS = l.reverse := by
    cases hr : l.reverse with
    | nil => rfl
    | cons x rt =>
      have hx : l.getLast? = some x := by
        rw [← List.head?_reverse, hr]
        rfl
      rw [List.dropWhile_cons, h2 x hx]
      simp
  rw [e2, List.reverse_reverse]

theorem stripWS_dumps (v : Json) : stripWS (dumpsJson v) = dumpsJson v := by
  apply stripWS_eq_self
  · intro x hx
    obtain ⟨c, cs, heq, hcase⟩ := dumps_head v
    rw [heq] at hx
    simp at hx
    subst hx
    rcases hcase with rfl | rfl | rfl | rfl | rfl | rfl | rfl | hd
    · decide
    · decide
    · decide
    · decide
    · decide
    · decide
    · decide
    · exact isDigit_not_ws hd
  · exact dumps_getLast v

/-! ### Serializer output parses back -/

theorem dumpsElems_cons (e : Json) (es : List Json) :
    dumpsElems (e :: es) = dumpsJson e ++ dumpsSep es := by
  cases es with
  | nil => simp [dumpsElems, dumpsSep]
  | cons w r => rfl

theorem strWF_mem {s : List Char} (h : jsonWF (.str s) = true) :
    ∀ c ∈ s, c.toNat < 0x10000 := by
  intro c hc
  have h2 := (List.all_eq_true.mp h) c hc
  simpa using h2

mutual

theorem jsize_le (v : Json) (hw : jsonWF v = true) : jsize v ≤ (dumpsJson v).length := by
  cases v with
  | null => simp [jsize, dumpsJson]
  | bool b => cases b <;> simp [jsize, dumpsJson]
  | num i =>
    show jsize (.num i) ≤ (intChars i).length
    have hlen : 1 ≤ (intChars i).length := by
      unfold intChars
      by_cases hneg : i < 0
      · simp [hneg]
      · rw [if_neg hneg]
        have := natChars_ne_nil i.toNat
        cases hcc : natChars i.toNat with
        | nil => exact absurd hcc this
        | cons c cs => simp
    simpa [jsize] using hlen
  | str s =>
    show jsize (.str s) ≤ ('"' :: (escString s ++ ['"'])).length
    simp [jsize]
  | arr es =>
    show 1 + jsizeList es ≤ ('[' :: (dumpsElems es ++ [']'])).length
    have h1 : jsizeList es ≤ (dumpsElems es).length + 1 := jsizeList_le es hw
    simp only [List.length_cons, List.length_append, List.length_singleton]
    omega
  | obj ms =>
    have hw2 : sortedKeysB ms = true ∧ jsonWFMembs ms = true := by
      have : (sortedKeysB ms && jsonWFMembs ms) = true := hw
      simpa using this
    have h1 : jsizeMembs ms ≤ (membsChars ms).length + 1 := jsizeMembs_le ms hw2.2
    rw [show jsize (.obj ms) = 1 + jsizeMembs ms from rfl, dumpsObj_sorted hw2.1]
    simp only [List.length_cons, List.length_append, List.length_singleton]
    omega

theorem jsizeList_le (es : List Json) (hw : jsonWFList es = true) :
    jsizeList es ≤ (dumpsElems es).length + 1 := by
  cases es with
  | nil => simp [jsizeList]
  | cons v r =>
    have hw2 : jsonWF v = true ∧ jsonWFList r = true := by
      have : (jsonWF v && jsonWFList r) = true := hw
      simpa using this
    have h1 : jsize v ≤ (dumpsJson v).length := jsize_le v hw2.1
    cases r with
    | nil =>
      show 1 + jsize v + jsizeList [] ≤ (dumpsJson v).length + 1
      simp only [jsizeList]
      omega
    | cons w t =>
      have h2 : jsizeList (w :: t) ≤ (dumpsElems (w :: t)).length + 1 :=
        jsizeList_le (w :: t) hw2.2
      show 1 + jsize v + jsizeList (w :: t) ≤
        (dumpsJson v ++ (',' :: dumpsElems (w :: t))).length + 1
      simp only [List.length_append, List.length_cons]
      omega

theorem jsizeMembs_le (ms : List (List Char × Json)) (hw : jsonWFMembs ms = true) :
    jsizeMembs ms ≤ (membsChars ms).length + 1 := by
  cases ms with
  | nil => simp [jsizeMembs]
  | cons p r =>
    obtain ⟨k, v⟩ := p
    have hw2 : jsonWF v = true ∧ jsonWFMembs r = true := by
      have : (k.all (fun c => decide (c.toNat < 0x10000)) && jsonWF v && jsonWFMembs r) = true := hw
      simp at this
      exact ⟨this.1.2, this.2⟩
    have h1 : jsize v ≤ (dumpsJson v).length := jsize_le v hw2.1
    cases r with
    | nil =>
      show 1 + jsize v + jsizeMembs [] ≤ ('"' :: (escString k ++ ('"' :: ':' :: dumpsJson v))).length + 1
      simp only [jsizeMembs, List.length_cons, List.length_append]
      omega
    | cons q t =>
      have h2 : jsizeMembs (q :: t) ≤ (membsChars (q :: t)).length + 1 :=
        jsizeMembs_le (q :: t) hw2.2
      show 1 + jsize v + jsizeMembs (q :: t) ≤
        (('"' :: (escString k ++ ('"' :: ':' :: dumpsJson v))) ++ (',' :: membsChars (q :: t))).length + 1
      simp only [List.length_append, List.length_cons]
      omega

end

theorem parseJ_null_red (f : Nat) (rest : List Char) :
    parseJ (f + 1) ('n' :: 'u' :: 'l' :: 'l' :: rest) = some (.null, rest) := by
  rw [parseJ.eq_def]
  simp [List.isPrefixOf]

theorem parseJ_true_red (f : Nat) (rest : List Char) :
    parseJ (f + 1) ('t' :: 'r' :: 'u' :: 'e' :: rest) = some (.bool true, rest) := by
  rw [parseJ.eq_def]
  simp [List.isPrefixOf]

theorem parseJ_false_red (f : Nat) (rest : List Char) :
    parseJ (f + 1) ('f' :: 'a' :: 'l' :: 's' :: 'e' :: rest) = some (.bool false, rest) := by
  rw [parseJ.eq_def]
  simp [List.isPrefixOf]

theorem parseJ_str_red (f : Nat) (s : List Char) :
    parseJ (f + 1) ('"' :: s) = (parseStrBody s).map (fun p => (Json.str p.1, p.2)) := by
  rw [parseJ.eq_def]
  simp

theorem parseJ_neg_red (f : Nat) (t : List Char) :
    parseJ (f + 1) ('-' :: t) = (parseNatNum t).map (fun p => (Json.num (-(p.1 : Int)), p.2)) := by
  rw [parseJ.eq_def]
  simp

theorem parseJ_digit_red (f : Nat) (c : Char) (t : List Char) (h : c.isDigit = true) :
    parseJ (f + 1) (c :: t) = (parseNatNum (c :: t)).map (fun p => (Json.num (p.1 : Int), p.2)) := by
  obtain ⟨h1, h2, h3, h4, h5, h6, h7⟩ := isDigit_ne h
  rw [parseJ.eq_def]
  simp only []
  rw [if_neg h1, if_neg h2, if_neg h3, if_neg h4, if_neg h5, if_neg h6, if_neg h7, if_pos h]

theorem parseJ_arrNil_red (f : Nat) (rest : List Char) :
    parseJ (f + 1) ('[' :: ']' :: rest) = some (.arr [], rest) := by
  rw [parseJ.eq_def]
  simp

theorem parseJ_objNil_red (f : Nat) (rest : List Char) :
    parseJ (f + 1) ('{' :: '}' :: rest) = some (.obj [], rest) := by
  rw [parseJ.eq_def]
  simp

theorem parseJ_arrCons_red (f : Nat) (c : Char) (t : List Char) (h : ¬c = ']') :
    parseJ (f + 1) ('[' :: c :: t) = (parseElems f (c :: t)).map (fun p => (Json.arr p.1, p.2)) := by
  rw [parseJ.eq_def]
  simp only []
  rw [if_neg (show ¬('[' : Char) = 'n' by decide), if_neg (show ¬('[' : Char) = 't' by decide),
    if_neg (show ¬('[' : Char) = 'f' by decide), if_neg (show ¬('[' : Char) = '"' by decide),
    if_true]
  split
  · rename_i rest heq
    injection heq with h1 h2
    exact absurd h1 h
  · rfl

theorem parseJ_objCons_red (f : Nat) (c : Char) (t : List Char) (h : ¬c = '}') :
    parseJ (f + 1) ('{' :: c :: t) = (parseMembs f (c :: t)).map (fun p => (Json.obj p.1, p.2)) := by
  rw [parseJ.eq_def]
  simp only []
  rw [if_neg (show ¬('{' : Char) = 'n' by decide), if_neg (show ¬('{' : Char) = 't' by decide),
    if_neg (show ¬('{' : Char) = 'f' by decide), if_neg (show ¬('{' : Char) = '"' by decide),
    if_neg (show ¬('{' : Char) = '[' by decide), if_true]
  split
  · rename_i rest heq
    injection heq with h1 h2
    exact absurd h1 h
  · rfl

theorem jsize_pos (v : Json) : 1 ≤ jsize v := by
  cases v <;> simp [jsize]

mutual

theorem parseJ_dumps (v : Json) (hw : jsonWF v = true) :
    ∀ f, jsize v ≤ f → ∀ rest, numBoundaryB rest = true →
      parseJ f (dumpsJson v ++ rest) = some (v, rest) := by
  intro f hf rest hb
  obtain ⟨f2, rfl⟩ : ∃ f2, f = f2 + 1 := ⟨f - 1, by have := jsize_pos v; omega⟩
  cases v with
  | null => exact parseJ_null_red f2 rest
  | bool b =>
    cases b with
    | true => exact parseJ_true_red f2 rest
    | false => exact parseJ_false_red f2 rest
  | num i =>
    by_cases hneg : i < 0
    · have hd : dumpsJson (.num i) ++ rest = '-' :: (natChars i.natAbs ++ rest) := by
        show intChars i ++ rest = _
        unfold intChars
        rw [if_pos hneg]
        simp
      rw [hd, parseJ_neg_red, parseNatNum_natChars _ _ hb]
      have habs : ((i.natAbs : Nat) : Int) = -i := Int.ofNat_natAbs_of_nonpos (by omega)
      simp [habs]
    · obtain ⟨c, cs, hcc, hdig⟩ := natChars_head_digit i.toNat
      have hd : dumpsJson (.num i) ++ rest = c :: (cs ++ rest) := by
        show intChars i ++ rest = _
        unfold intChars
        rw [if_neg hneg, hcc]
        simp
      rw [hd, parseJ_digit_red f2 c _ hdig,
        show c :: (cs ++ rest) = natChars i.toNat ++ rest by rw [hcc]; simp,
        parseNatNum_natChars _ _ hb]
      simp
      omega
  | str s =>
    have hd : dumpsJson (.str s) ++ rest = '"' :: (escString s ++ ('"' :: rest)) := by
      show ('"' :: (escString s ++ ['"'])) ++ rest = _
      simp
    rw [hd, parseJ_str_red, parseStrBody_escString s (strWF_mem hw) rest]
    rfl
  | arr es =>
    cases es with
    | nil =>
      have hd : dumpsJson (.arr []) ++ rest = '[' :: ']' :: rest := rfl
      rw [hd, parseJ_arrNil_red]
    | cons e es2 =>
      have hwl : jsonWFList (e :: es2) = true := hw
      obtain ⟨c, cs, hcc, hcase⟩ := dumps_head e
      have hd : dumpsJson (.arr (e :: es2)) ++ rest =
          '[' :: (dumpsElems (e :: es2) ++ (']' :: rest)) := by
        show ('[' :: (dumpsElems (e :: es2) ++ [']'])) ++ rest = _
        simp
      have hsplit : dumpsElems (e :: es2) ++ (']' :: rest) =
          c :: ((cs ++ dumpsSep es2) ++ (']' :: rest)) := by
        rw [dumpsElems_cons, hcc]
        simp
      have hcne : ¬c = ']' := by
        rcases hcase with rfl | rfl | rfl | rfl | rfl | rfl | rfl | hdg
        · decide
        · decide
        · decide
        · decide
        · decide
        · decide
        · decide
        · intro hh
          rw [hh] at hdg
          exact absurd hdg (by decide)
      rw [hd, hsplit, parseJ_arrCons_red f2 c _ hcne, ← hsplit,
        parseElems_dumps (e :: es2) (by simp) hwl f2
          (by have h4 : jsize (Json.arr (e :: es2)) = 1 + jsizeList (e :: es2) := rfl
              omega) rest]
      rfl
  | obj ms =>
    have hw2 : sortedKeysB ms = true ∧ jsonWFMembs ms = true := by
      have : (sortedKeysB ms && jsonWFMembs ms) = true := hw
      simpa using this
    cases ms with
    | nil =>
      have hd : dumpsJson (.obj []) ++ rest = '{' :: '}' :: rest := rfl
      rw [hd, parseJ_objNil_red]
    | cons p ms2 =>
      obtain ⟨k, v2⟩ := p
      have hd : dumpsJson (.obj ((k, v2) :: ms2)) ++ rest =
          '{' :: (membsChars ((k, v2) :: ms2) ++ ('}' :: rest)) := by
        rw [dumpsObj_sorted hw2.1]
        simp
      have hsplit : ∃ t, membsChars ((k, v2) :: ms2) ++ ('}' :: rest) = '"' :: t := by
        cases ms2 with
        | nil =>
          exact ⟨escString k ++ ('"' :: (':' :: (dumpsJson v2 ++ ('}' :: rest)))),
            by simp [membsChars]⟩
        | cons q r =>
          exact ⟨escString k ++ ('"' :: (':' :: (dumpsJson v2 ++
            (',' :: (membsChars (q :: r) ++ ('}' :: rest)))))),
            by simp [membsChars]⟩
      obtain ⟨t, ht⟩ := hsplit
      rw [hd, ht, parseJ_objCons_red f2 '"' t (by decide), ← ht,
        parseMembs_dumps ((k, v2) :: ms2) (by simp) hw2.2 f2
          (by have h4 : jsize (Json.obj ((k, v2) :: ms2)) = 1 + jsizeMembs ((k, v2) :: ms2) := rfl
              omega) rest]
      rfl

theorem parseElems_dumps (es : List Json) (hne : es ≠ []) (hw : jsonWFList es = true) :
    ∀ f, jsizeList es ≤ f → ∀ rest,
      parseElems f (dumpsElems es ++ (']' :: rest)) = some (es, rest) := by
  intro f hf rest
  match es with
  | [] => exact absurd rfl hne
  | [v] =>
    have hw2 : jsonWF v = true := by
      have h3 : (jsonWF v && jsonWFList []) = true := hw
      simpa [jsonWFList] using h3
    have h4 : jsizeList [v] = 1 + jsize v + 0 := rfl
    obtain ⟨f2, rfl⟩ : ∃ f2, f = f2 + 1 := ⟨f - 1, by omega⟩
    rw [parseElems.eq_def]
    simp only []
    rw [show dumpsElems [v] = dumpsJson v from rfl,
      parseJ_dumps v hw2 f2 (by omega) (']' :: rest) rfl]
    rfl
  | v :: w :: r =>
    have hw2 : jsonWF v = true ∧ jsonWFList (w :: r) = true := by
      have : (jsonWF v && jsonWFList (w :: r)) = true := hw
      simpa using this
    have h4 : jsizeList (v :: w :: r) = 1 + jsize v + jsizeList (w :: r) := rfl
    obtain ⟨f2, rfl⟩ : ∃ f2, f = f2 + 1 := ⟨f - 1, by omega⟩
    have hshape : dumpsElems (v :: w :: r) ++ (']' :: rest) =
        dumpsJson v ++ (',' :: (dumpsElems (w :: r) ++ (']' :: rest))) := by
      show (dumpsJson v ++ (',' :: dumpsElems (w :: r))) ++ (']' :: rest) = _
      simp
    rw [parseElems.eq_def]
    simp only []
    rw [hshape, parseJ_dumps v hw2.1 f2 (by omega)
      (',' :: (dumpsElems (w :: r) ++ (']' :: rest))) rfl]
    simp only []
    rw [parseElems_dumps (w :: r) (by simp) hw2.2 f2 (by omega) rest]
    rfl

theorem parseMembs_dumps (ms : List (List Char × Json)) (hne : ms ≠ [])
    (hw : jsonWFMembs ms = true) :
    ∀ f, jsizeMembs ms ≤ f → ∀ rest,
      parseMembs f (membsChars ms ++ ('}' :: rest)) = some (ms, rest) := by
  intro f hf rest
  match ms with
  | [] => exact absurd rfl hne
  | [(k, v)] =>
    have hw2 : (∀ c ∈ k, c.toNat < 0x10000) ∧ jsonWF v = true := by
      have h3 : (k.all (fun c => decide (c.toNat < 0x10000)) && jsonWF v && jsonWFMembs []) = true := hw
      simp at h3
      exact ⟨h3.1.1, h3.1.2⟩
    have h4 : jsizeMembs [(k, v)] = 1 + jsize v + 0 := rfl
    obtain ⟨f2, rfl⟩ : ∃ f2, f = f2 + 1 := ⟨f - 1, by omega⟩
    have hshape : membsChars [(k, v)] ++ ('}' :: rest) =
        '"' :: (escString k ++ ('"' :: (':' :: (dumpsJson v ++ ('}' :: rest))))) := by
      simp [membsChars]
    rw [parseMembs.eq_def]
    simp only []
    rw [hshape]
    simp only []
    rw [parseStrBody_escString k hw2.1 _]
    simp only []
    rw [parseJ_dumps v hw2.2 f2 (by omega) ('}' :: rest) rfl]
    rfl
  | (k, v) :: q :: r =>
    have hw2 : (∀ c ∈ k, c.toNat < 0x10000) ∧ jsonWF v = true ∧ jsonWFMembs (q :: r) = true := by
      have h3 : (k.all (fun c => decide (c.toNat < 0x10000)) && jsonWF v && jsonWFMembs (q :: r)) = true := hw
      simp at h3
      exact ⟨h3.1.1, h3.1.2, h3.2⟩
    have h4 : jsizeMembs ((k, v) :: q :: r) = 1 + jsize v + jsizeMembs (q :: r) := rfl
    obtain ⟨f2, rfl⟩ : ∃ f2, f = f2 + 1 := ⟨f - 1, by omega⟩
    have hshape : membsChars ((k, v) :: q :: r) ++ ('}' :: rest) =
        '"' :: (escString k ++ ('"' :: (':' :: (dumpsJson v ++
          (',' :: (membsChars (q :: r) ++ ('}' :: rest))))))) := by
      simp [membsChars]
    rw [parseMembs.eq_def]
    simp only []
    rw [hshape]
    simp only []
    rw [parseStrBody_escString k hw2.1 _]
    simp only []
    rw [parseJ_dumps v hw2.2.1 f2 (by omega)
      (',' :: (membsChars (q :: r) ++ ('}' :: rest))) rfl]
    simp only []
    rw [parseMembs_dumps (q :: r) (by simp) hw2.2.2 f2 (by omega) rest]
    rfl

end

/-- The central serialization fact: `json.loads` inverts `json.dumps`
on canonical records. -/
theorem loads_dumps (v : Json) (hw : jsonWF v = true) : loads (dumpsJson v) = some v := by
  have hp : parseJ ((dumpsJson v).length + 1) (dumpsJson v) = some (v, []) := by
    have h2 := parseJ_dumps v hw ((dumpsJson v).length + 1)
      (by have := jsize_le v hw; omega) [] rfl
    rwa [List.append_nil] at h2
  unfold loads
  simp only [stripWS_dumps, hp]

/-! ### UTF-8 round trip -/

set_option maxHeartbeats 2000000

theorem decodeUtf8_cons (b : Nat) (rest : List Nat) :
    decodeUtf8 (b :: rest) =
      (if b < 0x80 then (decodeUtf8 rest).map (Char.ofNat b :: ·)
      else if b < 0xc2 then none
      else if b < 0xe0 then decodeTail2 b rest
      else if b < 0xf0 then decodeTail3 b rest
      else if b < 0xf5 then decodeTail4 b rest
      else none) := by
  rw [decodeUtf8.eq_def]

theorem decodeTail2_cons (b b1 : Nat) (r : List Nat) :
    decodeTail2 b (b1 :: r) =
      (if 0x80 ≤ b1 ∧ b1 < 0xc0 then
        (decodeUtf8 r).map (Char.ofNat ((b - 0xc0) * 64 + (b1 - 0x80)) :: ·)
      else none) := by
  rw [decodeTail2.eq_def]

theorem decodeTail3_cons (b b1 b2 : Nat) (r : List Nat) :
    decodeTail3 b (b1 :: b2 :: r) =
      (if (if b = 0xe0 then 0xa0 ≤ b1 else 0x80 ≤ b1) ∧
          (if b = 0xed then b1 < 0xa0 else b1 < 0xc0) ∧ 0x80 ≤ b2 ∧ b2 < 0xc0 then
        (decodeUtf8 r).map (Char.ofNat ((b - 0xe0) * 4096 + (b1 - 0x80) * 64 + (b2 - 0x80)) :: ·)
      else none) := by
  rw [decodeTail3.eq_def]

theorem decodeTail4_cons (b b1 b2 b3 : Nat) (r : List Nat) :
    decodeTail4 b (b1 :: b2 :: b3 :: r) =
      (if (if b = 0xf0 then 0x90 ≤ b1 else 0x80 ≤ b1) ∧
          (if b = 0xf4 then b1 < 0x90 else b1 < 0xc0) ∧
          0x80 ≤ b2 ∧ b2 < 0xc0 ∧ 0x80 ≤ b3 ∧ b3 < 0xc0 then
        (decodeUtf8 r).map
          (Char.ofNat ((b - 0xf0) * 262144 + (b1 - 0x80) * 4096 + (b2 - 0x80) * 64 + (b3 - 0x80)) :: ·)
      else none) := by
  rw [decodeTail4.eq_def]

theorem decodeUtf8_encodeChar (c : Char) (t : List Nat) :
    decodeUtf8 (encodeChar c ++ t) = (decodeUtf8 t).map (c :: ·) := by
  have hv : c.toNat < 0xd800 ∨ (0xdfff < c.toNat ∧ c.toNat < 0x110000) := c.valid
  by_cases h1 : c.toNat < 0x80
  · have he : encodeChar c ++ t = c.toNat :: t := by simp [encodeChar, h1]
    rw [he, decodeUtf8_cons]
    rw [if_pos h1, Char.ofNat_toNat]
  · by_cases h2 : c.toNat < 0x800
    · have he : encodeChar c ++ t =
          (0xc0 + c.toNat / 64) :: (0x80 + c.toNat % 64) :: t := by
        simp [encodeChar, h1, h2]
      rw [he, decodeUtf8_cons]
      rw [if_neg (by omega), if_neg (by omega), if_pos (by omega)]
      rw [decodeTail2_cons, if_pos (by omega)]
      have harg : (0xc0 + c.toNat / 64 - 0xc0) * 64 + (0x80 + c.toNat % 64 - 0x80) = c.toNat := by
        omega
      rw [harg, Char.ofNat_toNat]
    · by_cases h3 : c.toNat < 0x10000
      · have he : encodeChar c ++ t =
            (0xe0 + c.toNat / 4096) :: (0x80 + c.toNat / 64 % 64) :: (0x80 + c.toNat % 64) :: t := by
          simp [encodeChar, h1, h2, h3]
        rw [he, decodeUtf8_cons]
        rw [if_neg (by omega), if_neg (by omega), if_neg (by omega), if_pos (by omega)]
        rw [decodeTail3_cons, if_pos (by refine ⟨?_, ?_, by omega, by omega⟩ <;> split <;> omega)]
        have harg : (0xe0 + c.toNat / 4096 - 0xe0) * 4096 +
            (0x80 + c.toNat / 64 % 64 - 0x80) * 64 + (0x80 + c.toNat % 64 - 0x80) = c.toNat := by
          omega
        rw [harg, Char.ofNat_toNat]
      · have he : encodeChar c ++ t =
            (0xf0 + c.toNat / 262144) :: (0x80 + c.toNat / 4096 % 64) ::
              (0x80 + c.toNat / 64 % 64) :: (0x80 + c.toNat % 64) :: t := by
          simp [encodeChar, h1, h2, h3]
        rw [he, decodeUtf8_cons]
        rw [if_neg (by omega), if_neg (by omega), if_neg (by omega), if_neg (by omega),
          if_pos (by omega)]
        rw [decodeTail4_cons,
          if_pos (by refine ⟨?_, ?_, by omega, by omega, by omega, by omega⟩ <;> split <;> omega)]
        have harg : (0xf0 + c.toNat / 262144 - 0xf0) * 262144 +
            (0x80 + c.toNat / 4096 % 64 - 0x80) * 4096 +
            (0x80 + c.toNat / 64 % 64 - 0x80) * 64 + (0x80 + c.toNat % 64 - 0x80) = c.toNat := by
          omega
        rw [harg, Char.ofNat_toNat]

/-- UTF-8 decoding inverts encoding on every string. -/
theorem decodeUtf8_encodeUtf8 : ∀ (l : List Char), decodeUtf8 (encodeUtf8 l) = some l := by
  intro l
  induction l with
  | nil => rfl
  | cons c r ih =>
    show decodeUtf8 (encodeChar c ++ encodeUtf8 r) = some (c :: r)
    rw [decodeUtf8_encodeChar, ih]
    rfl

/-! ### splitNull -/

theorem splitNull_append {xs : List Nat} (h : ∀ b ∈ xs, b ≠ 0) (ys : List Nat) :
    splitNull (xs ++ (0 :: ys)) = (xs, ys) := by
  induction xs with
  | nil => simp [splitNull]
  | cons b t ih =>
    have hb : b ≠ 0 := h b (by simp)
    simp only [List.cons_append, splitNull, if_neg hb, List.append_eq]
    rw [ih (fun x hx => h x (by simp [hx]))]

/-! ### HTML escape round trip and character classes -/

theorem pyUnescape_cons_of_ne (c : Char) (h1 : c ≠ '&') (X : List Char) :
    pyUnescape (c :: X) = c :: pyUnescape X := by
  rw [pyUnescape.eq_def]
  split
  · rename_i heq
    exact absurd heq (by simp)
  · rename_i heq
    injection heq with hc _
    exact absurd hc h1
  · rename_i heq
    injection heq with hc _
    exact absurd hc h1
  · rename_i heq
    injection heq with hc _
    exact absurd hc h1
  · rename_i heq
    injection heq with hc _
    exact absurd hc h1
  · rename_i heq
    injection heq with hc _
    exact absurd hc h1
  · rename_i c2 r2 heq
    injection heq with hc hr
    subst hc
    rw [hr]

theorem pyUnescape_escapeHtml : ∀ (l : List Char), pyUnescape (escapeHtml l) = l := by
  intro l
  induction l with
  | nil => rfl
  | cons c r ih =>
    show pyUnescape (escapeHtml1 c ++ escapeHtml r) = c :: r
    by_cases h1 : c = '&'
    · subst h1
      show pyUnescape ('&' :: 'a' :: 'm' :: 'p' :: ';' :: escapeHtml r) = _
      rw [pyUnescape.eq_def]
      simp only []
      rw [ih]
    by_cases h2 : c = '<'
    · subst h2
      show pyUnescape ('&' :: 'l' :: 't' :: ';' :: escapeHtml r) = _
      rw [pyUnescape.eq_def]
      simp only []
      rw [ih]
    by_cases h3 : c = '>'
    · subst h3
      show pyUnescape ('&' :: 'g' :: 't' :: ';' :: escapeHtml r) = _
      rw [pyUnescape.eq_def]
      simp only []
      rw [ih]
    by_cases h4 : c = '"'
    · subst h4
      show pyUnescape ('&' :: 'q' :: 'u' :: 'o' :: 't' :: ';' :: escapeHtml r) = _
      rw [pyUnescape.eq_def]
      simp only []
      rw [ih]
    by_cases h5 : c = '\''
    · subst h5
      show pyUnescape ('&' :: '#' :: 'x' :: '2' :: '7' :: ';' :: escapeHtml r) = _
      rw [pyUnescape.eq_def]
      simp only []
      rw [ih]
    · have he : escapeHtml1 c = [c] := by
        simp [escapeHtml1, h1, h2, h3, h4, h5]
      rw [he, List.cons_append, List.nil_append, pyUnescape_cons_of_ne c h1, ih]

/-! ### PNG chunk framing and extraction -/

namespace Png

theorem toBE4_length (n : Nat) : (toBE4 n).length = 4 := rfl

theorem toBE4_isEmpty (n : Nat) : (toBE4 n).isEmpty = false := rfl

theorem be32_toBE4 {n : Nat} (h : n < 4294967296) : be32 (toBE4 n) = n := by
  simp only [toBE4, be32]
  omega

theorem buildTextChunk_frame (kw tb rest : List Nat) :
    buildTextChunk kw tb ++ rest =
      toBE4 (kw ++ 0 :: tb).length ++
        (tEXtType ++ ((kw ++ 0 :: tb) ++
          (toBE4 (crc32 (tEXtType ++ (kw ++ 0 :: tb))) ++ rest))) := by
  simp [buildTextChunk, List.append_assoc]

theorem extractLoop_text (kw tb rest : List Nat)
    (hlen : (kw ++ 0 :: tb).length < 4294967296) :
    extractLoop (buildTextChunk kw tb ++ rest) =
      (let da := kw ++ 0 :: tb
       if (splitNull da).1.isEmpty then .error .invalidTextChunk
       else
         match decodeUtf8 (splitNull da).2 with
         | none => .error .unicodeError
         | some text =>
           if (splitNull da).1 = refigKeyword then
             match loads text with
             | none => .error .jsonError
             | some v => .ok v
           else extractLoop rest) := by
  have hD := buildTextChunk_frame kw tb rest
  have h1 : (buildTextChunk kw tb ++ rest).take 4 = toBE4 (kw ++ 0 :: tb).length := by
    rw [hD]; exact List.take_left' rfl
  have h3 : ((buildTextChunk kw tb ++ rest).drop 4).take 4 = tEXtType := by
    rw [hD, List.drop_left' (toBE4_length _)]; exact List.take_left' rfl
  have h4 : (buildTextChunk kw tb ++ rest).drop 8 =
      (kw ++ 0 :: tb) ++ (toBE4 (crc32 (tEXtType ++ (kw ++ 0 :: tb))) ++ rest) := by
    rw [hD]
    have ha : toBE4 (kw ++ 0 :: tb).length ++
        (tEXtType ++ ((kw ++ 0 :: tb) ++
          (toBE4 (crc32 (tEXtType ++ (kw ++ 0 :: tb))) ++ rest))) =
        (toBE4 (kw ++ 0 :: tb).length ++ tEXtType) ++
          ((kw ++ 0 :: tb) ++ (toBE4 (crc32 (tEXtType ++ (kw ++ 0 :: tb))) ++ rest)) := by
      simp [List.append_assoc]
    rw [ha]
    exact List.drop_left' rfl
  have h5 : ((buildTextChunk kw tb ++ rest).drop 8).take (kw ++ 0 :: tb).length
      = kw ++ 0 :: tb := by
    rw [h4]; exact List.take_left' rfl
  have h6 : (buildTextChunk kw tb ++ rest).drop (12 + (kw ++ 0 :: tb).length) = rest := by
    rw [hD]
    have ha : toBE4 (kw ++ 0 :: tb).length ++
        (tEXtType ++ ((kw ++ 0 :: tb) ++
          (toBE4 (crc32 (tEXtType ++ (kw ++ 0 :: tb))) ++ rest))) =
        (toBE4 (kw ++ 0 :: tb).length ++ (tEXtType ++ ((kw ++ 0 :: tb) ++
          toBE4 (crc32 (tEXtType ++ (kw ++ 0 :: tb)))))) ++ rest := by
      simp [List.append_assoc]
    rw [ha]
    refine List.drop_left' ?_
    simp [List.length_append, toBE4_length, tEXtType]
    omega
  rw [extractLoop.eq_def]
  rw [h1]
  rw [if_neg (by simp [toBE4_isEmpty]), if_neg (by simp [toBE4_length])]
  simp only [be32_toBE4 hlen, h3, h5, h6, if_true]
  all_goals rfl

theorem extractLoop_refig (M : Json) (hw : jsonWF M = true) (rest : List Nat)
    (hlen : (refigKeyword ++ 0 :: encodeUtf8 (dumpsJson M)).length < 4294967296) :
    extractLoop (buildTextChunk refigKeyword (encodeUtf8 (dumpsJson M)) ++ rest) = .ok M := by
  rw [extractLoop_text _ _ _ hlen]
  have hs : splitNull (refigKeyword ++ 0 :: encodeUtf8 (dumpsJson M)) =
      (refigKeyword, encodeUtf8 (dumpsJson M)) :=
    splitNull_append (by decide) _
  simp only [hs]
  rw [if_neg (by decide), decodeUtf8_encodeUtf8]
  simp only [if_true, loads_dumps M hw]

theorem sig_prefix_append (X : List Nat) : pngSig.isPrefixOf (pngSig ++ X) = true := by
  rw [ List.isPrefixOf_iff_prefix]
  exact List.prefix_append _ _

theorem drop8_sig (X : List Nat) : (pngSig ++ X).drop 8 = X := List.drop_left' rfl

theorem embed_metadata_ok {png : List Nat} (h : pngSig.isPrefixOf png = true) (M : Json) :
    embed_metadata png M =
      .ok (pngSig ++ (buildTextChunk refigKeyword (encodeUtf8 (dumpsJson M)) ++ png.drop 8)) := by
  simp [embed_metadata, h]

theorem extract_embed (png : List Nat) (M : Json) (hsig : pngSig.isPrefixOf png = true)
    (hw : jsonWF M = true)
    (hlen : (refigKeyword ++ 0 :: encodeUtf8 (dumpsJson M)).length < 4294967296) :
    (embed_metadata png M).bind extract_metadata = .ok M := by
  rw [embed_metadata_ok hsig]
  show extract_metadata _ = _
  rw [extract_metadata, if_pos (sig_prefix_append _), drop8_sig]
  exact extractLoop_refig M hw _ hlen

theorem chunkSeq_buildTextChunk (kw tb rest : List Nat)
    (hlen : (kw ++ 0 :: tb).length < 4294967296) :
    chunkSeq (buildTextChunk kw tb ++ rest) = (tEXtType, kw ++ 0 :: tb) :: chunkSeq rest := by
  have hD := buildTextChunk_frame kw tb rest
  have h1 : (buildTextChunk kw tb ++ rest).take 4 = toBE4 (kw ++ 0 :: tb).length := by
    rw [hD]; exact List.take_left' rfl
  have h3 : ((buildTextChunk kw tb ++ rest).drop 4).take 4 = tEXtType := by
    rw [hD, List.drop_left' (toBE4_length _)]; exact List.take_left' rfl
  have h4 : (buildTextChunk kw tb ++ rest).drop 8 =
      (kw ++ 0 :: tb) ++ (toBE4 (crc32 (tEXtType ++ (kw ++ 0 :: tb))) ++ rest) := by
    rw [hD]
    have ha : toBE4 (kw ++ 0 :: tb).length ++
        (tEXtType ++ ((kw ++ 0 :: tb) ++
          (toBE4 (crc32 (tEXtType ++ (kw ++ 0 :: tb))) ++ rest))) =
        (toBE4 (kw ++ 0 :: tb).length ++ tEXtType) ++
          ((kw ++ 0 :: tb) ++ (toBE4 (crc32 (tEXtType ++ (kw ++ 0 :: tb))) ++ rest)) := by
      simp [List.append_assoc]
    rw [ha]
    exact List.drop_left' rfl
  have h5 : ((buildTextChunk kw tb ++ rest).drop 8).take (kw ++ 0 :: tb).length
      = kw ++ 0 :: tb := by
    rw [h4]; exact List.take_left' rfl
  have h6 : (buildTextChunk kw tb ++ rest).drop (12 + (kw ++ 0 :: tb).length) = rest := by
    rw [hD]
    have ha : toBE4 (kw ++ 0 :: tb).length ++
        (tEXtType ++ ((kw ++ 0 :: tb) ++
          (toBE4 (crc32 (tEXtType ++ (kw ++ 0 :: tb))) ++ rest))) =
        (toBE4 (kw ++ 0 :: tb).length ++ (tEXtType ++ ((kw ++ 0 :: tb) ++
          toBE4 (crc32 (tEXtType ++ (kw ++ 0 :: tb)))))) ++ rest := by
      simp [List.append_assoc]
    rw [ha]
    refine List.drop_left' ?_
    simp [List.length_append, toBE4_length, tEXtType]
    omega
  rw [chunkSeq.eq_def]
  rw [h1]
  rw [if_neg (by simp [toBE4_length])]
  simp only [be32_toBE4 hlen, h3, h5, h6]

theorem chunkSeq_nil : chunkSeq [] = [] := by
  rw [chunkSeq.eq_def]
  simp

theorem countRefigChunks_embed (png : List Nat) (M : Json) (hsig : pngSig.isPrefixOf png = true)
    (hlen : (refigKeyword ++ 0 :: encodeUtf8 (dumpsJson M)).length < 4294967296) :
    (embed_metadata png M).map countRefigChunks = .ok (countRefigChunks png + 1) := by
  rw [embed_metadata_ok hsig]
  show Except.ok (countRefigChunks _) = _
  rw [countRefigChunks, pngChunks, drop8_sig, chunkSeq_buildTextChunk _ _ _ hlen]
  rw [List.countP_cons]
  have : isRefigChunk (tEXtType, refigKeyword ++ 0 :: encodeUtf8 (dumpsJson M)) = true := by
    rw [isRefigChunk]
    simp only [splitNull_append (by decide : (forall b, b ∈ refigKeyword → b ≠ 0)) _]
    simp
  rw [this]
  rfl

theorem extractLoop_status (rem : List Nat) :
    scanStatus rem = resStatus (extractLoop rem) ∧ extractLoop rem ≠ .error .notPng := by
  have H : ∀ n rem2, List.length rem2 ≤ n →
      scanStatus rem2 = resStatus (extractLoop rem2) ∧ extractLoop rem2 ≠ .error .notPng := by
    intro n
    induction n with
    | zero =>
      intro rem2 hle
      have h0 : rem2 = [] := List.length_eq_zero.mp (Nat.le_zero.mp hle)
      subst h0
      rw [scanStatus.eq_def, extractLoop.eq_def]
      simp [resStatus]
    | succ n ih =>
      intro rem2 hle
      rw [scanStatus.eq_def, extractLoop.eq_def]
      by_cases h1 : (rem2.take 4).isEmpty
      · simp [h1, resStatus]
      · have hne : rem2 ≠ [] := by
          intro h
          rw [h] at h1
          exact h1 rfl
        have hpos : 0 < rem2.length := List.length_pos.mpr hne
        have hrec : ∀ L : Nat, (rem2.drop (12 + L)).length ≤ n := by
          intro L
          simp only [List.length_drop]
          omega
        by_cases h2 : (rem2.take 4).length < 4
        · have h2' : rem2.length < 4 := by
            simp only [List.length_take] at h2
            omega
          simp [h1, h2, h2', resStatus]
        · rw [if_neg h1, if_neg h2, if_neg h1, if_neg h2]
          by_cases h3 : (rem2.drop 4).take 4 = tEXtType
          · rw [if_pos h3, if_pos h3]
            by_cases h4 : (splitNull ((rem2.drop 8).take (be32 (rem2.take 4)))).1.isEmpty
            · simp [h4, resStatus]
            · rw [if_neg h4, if_neg h4]
              cases hdec : decodeUtf8 (splitNull ((rem2.drop 8).take (be32 (rem2.take 4)))).2 with
              | none => simp [resStatus]
              | some text =>
                simp only []
                by_cases h5 : (splitNull ((rem2.drop 8).take (be32 (rem2.take 4)))).1 = refigKeyword
                · rw [if_pos h5, if_pos h5]
                  cases hl : loads text with
                  | none => simp [resStatus]
                  | some v => simp [resStatus]
                · rw [if_neg h5, if_neg h5]
                  exact ih _ (hrec _)
          · rw [if_neg h3, if_neg h3]
            exact ih _ (hrec _)
  exact H rem.length rem le_rfl

theorem emptyKw_extract : extract_metadata emptyKwPng = .error .invalidTextChunk := by
  rw [emptyKwPng, extract_metadata, if_pos (sig_prefix_append _), drop8_sig]
  rw [extractLoop_text _ _ _ (by decide)]
  simp [splitNull]

theorem emptyKw_count : countRefigChunks emptyKwPng = 1 := by
  rw [emptyKwPng, countRefigChunks, pngChunks, drop8_sig]
  rw [chunkSeq_buildTextChunk _ _ _ (by decide)]
  rw [show buildTextChunk refigKeyword (encodeUtf8 (dumpsJson (Json.obj []))) =
    buildTextChunk refigKeyword (encodeUtf8 (dumpsJson (Json.obj []))) ++ [] from (List.append_nil _).symm]
  rw [chunkSeq_buildTextChunk _ _ _ (by decide), chunkSeq_nil]
  rw [List.countP_cons, List.countP_cons, List.countP_nil]
  norm_num [isRefigChunk, splitNull_append (by decide : (forall b, b ∈ refigKeyword → b ≠ 0)) _]
  decide

theorem embed_once : embed_metadata sigOnlyPng cJson1 = .ok pngOnce := rfl

theorem embed_twice : embed_metadata pngOnce cJson2 = .ok pngTwice := by
  rw [pngOnce, embed_metadata_ok (sig_prefix_append _), pngTwice, drop8_sig]

theorem twice_count : countRefigChunks pngTwice = 2 := by
  rw [pngTwice, countRefigChunks, pngChunks, drop8_sig]
  rw [chunkSeq_buildTextChunk _ _ _ (by decide), chunkSeq_buildTextChunk _ _ _ (by decide),
    chunkSeq_nil]
  rw [List.countP_cons, List.countP_cons, List.countP_nil]
  norm_num [isRefigChunk, splitNull_append (by decide : (forall b, b ∈ refigKeyword → b ≠ 0)) _]

theorem twice_extract : extract_metadata pngTwice = .ok cJson2 := by
  rw [pngTwice, extract_metadata, if_pos (sig_prefix_append _), drop8_sig]
  exact extractLoop_refig cJson2 (by decide) _ (by decide)


end Png

/-! ### SVG matching, splicing and extraction -/

theorem lowerC_ne_lt {c : Char} (h : c ≠ '<') : lowerC c ≠ '<' := by
  intro he
  rw [lowerC] at he
  by_cases hA : 'A' ≤ c ∧ c ≤ 'Z'
  · rw [if_pos hA] at he
    have hA2 : 65 ≤ c.toNat ∧ c.toNat ≤ 90 := ⟨hA.1, hA.2⟩
    have h60 : (Char.ofNat (c.toNat + 32)).toNat = 60 := by rw [he]; rfl
    rw [toNat_ofNat_valid (Or.inl (by omega))] at h60
    omega
  · rw [if_neg hA] at he
    exact h he

theorem ciIsPrefix_append_long : ∀ (p xs ys : List Char), p.length ≤ xs.length →
    ciIsPrefix p (xs ++ ys) = ciIsPrefix p xs := by
  intro p
  induction p with
  | nil => intro xs ys _; cases xs <;> rfl
  | cons q p ih =>
    intro xs ys h
    cases xs with
    | nil => simp at h
    | cons x xs =>
      show (lowerC x = q && ciIsPrefix p (xs ++ ys)) = (lowerC x = q && ciIsPrefix p xs)
      rw [ih xs ys (by simpa using h)]

theorem ciIsPrefix_append_absent : ∀ (p xs : List Char) (c : Char) (ys : List Char),
    xs.length < p.length → (∀ q ∈ p, lowerC c ≠ q) →
    ciIsPrefix p (xs ++ c :: ys) = false := by
  intro p
  induction p with
  | nil => intro xs c ys h _; simp at h
  | cons q p ih =>
    intro xs c ys h habs
    cases xs with
    | nil =>
      show (lowerC c = q && ciIsPrefix p ys) = false
      have : lowerC c ≠ q := habs q (by simp)
      simp [this]
    | cons x xs =>
      show (lowerC x = q && ciIsPrefix p (xs ++ c :: ys)) = false
      rw [ih xs c ys (by simpa using h) (fun r hr => habs r (by simp [hr]))]
      simp

theorem Svg.noMetaOccB_drop : ∀ (t : List Char), Svg.noMetaOccB t = true →
    ∀ i, ciIsPrefix metaPat (t.drop i) = false := by
  intro t
  induction t with
  | nil => intro _ i; cases i <;> rfl
  | cons c cs ih =>
    intro h i
    have h1 : ciIsPrefix metaPat (c :: cs) = false ∧ Svg.noMetaOccB cs = true := by
      rw [Svg.noMetaOccB] at h
      constructor
      · have := (Bool.and_eq_true _ _).mp h |>.1
        simpa using this
      · exact (Bool.and_eq_true _ _).mp h |>.2
    cases i with
    | zero => exact h1.1
    | succ j => exact ih h1.2 j

theorem Svg.noMetaOccB_append_right : ∀ (x y : List Char),
    Svg.noMetaOccB (x ++ y) = true → Svg.noMetaOccB y = true := by
  intro x
  induction x with
  | nil => intro y h; exact h
  | cons c cs ih =>
    intro y h
    rw [List.cons_append, Svg.noMetaOccB] at h
    exact ih y ((Bool.and_eq_true _ _).mp h).2

theorem matchMetaAt_none_of_gate {s : List Char}
    (h : ciIsPrefix metaPat s = false) : matchMetaAt s = none := by
  rw [matchMetaAt, if_neg (by simp [h])]

theorem findMetaSplit_cons_skip (c : Char) (cs : List Char) (h : matchMetaAt (c :: cs) = none) :
    findMetaSplit (c :: cs) =
      (findMetaSplit cs).map (fun q => ⟨c :: q.pre, q.openTag, q.body, q.tail⟩) := by
  rw [show findMetaSplit (c :: cs) =
    (match matchMetaAt (c :: cs) with
     | some (o, b, r) => some ⟨[], o, b, r⟩
     | none => (findMetaSplit cs).map
        (fun q => ⟨c :: q.pre, q.openTag, q.body, q.tail⟩)) from rfl, h]

theorem findMetaSplit_cons_match (c : Char) (cs : List Char) (o b r : List Char)
    (h : matchMetaAt (c :: cs) = some (o, b, r)) :
    findMetaSplit (c :: cs) = some ⟨[], o, b, r⟩ := by
  rw [show findMetaSplit (c :: cs) =
    (match matchMetaAt (c :: cs) with
     | some (o, b, r) => some ⟨[], o, b, r⟩
     | none => (findMetaSplit cs).map
        (fun q => ⟨c :: q.pre, q.openTag, q.body, q.tail⟩)) from rfl, h]

theorem findMetaSplit_none_of_noOcc : ∀ (t : List Char), Svg.noMetaOccB t = true →
    findMetaSplit t = none := by
  intro t
  induction t with
  | nil => intro _; rfl
  | cons c cs ih =>
    intro h
    rw [Svg.noMetaOccB] at h
    have h1 := (Bool.and_eq_true _ _).mp h
    rw [findMetaSplit_cons_skip c cs (matchMetaAt_none_of_gate (by simpa using h1.1))]
    rw [ih h1.2]
    rfl

theorem findMetaSplit_append : ∀ (A Z : List Char),
    (∀ i, i < A.length → ciIsPrefix metaPat (A.drop i ++ Z) = false) →
    findMetaSplit (A ++ Z) =
      (findMetaSplit Z).map (fun q => ⟨A ++ q.pre, q.openTag, q.body, q.tail⟩) := by
  intro A
  induction A with
  | nil =>
    intro Z _
    cases h : findMetaSplit Z <;> simp [h]
  | cons c A ih =>
    intro Z h
    rw [List.cons_append]
    rw [findMetaSplit_cons_skip c (A ++ Z)
      (matchMetaAt_none_of_gate (by simpa using h 0 (by simp)))]
    rw [ih Z (fun i hi => by simpa using h (i + 1) (by simpa using hi))]
    cases findMetaSplit Z <;> simp

theorem findCI_closePat : ∀ (E T : List Char), (∀ c ∈ E, c ≠ '<') →
    findCI closePat (E ++ (closePat ++ T)) = some E.length := by
  intro E
  induction E with
  | nil =>
    intro T _
    rfl
  | cons c E ih =>
    intro T hE
    have hc : lowerC c ≠ '<' := lowerC_ne_lt (hE c (by simp))
    show (if ciIsPrefix closePat (c :: (E ++ (closePat ++ T))) = true then some 0
      else (findCI closePat (E ++ (closePat ++ T))).map (· + 1)) = some (E.length + 1)
    rw [if_neg (by
      show ¬((lowerC c = '<' && ciIsPrefix "/metadata>".data (E ++ (closePat ++ T))) = true)
      simp [hc])]
    rw [ih T (fun d hd => hE d (by simp [hd]))]
    rfl

theorem findChar_gt_open (X : List Char) :
    findChar '>' (' ' :: 'i' :: 'd' :: '=' :: '"' :: 'r' :: 'e' :: 'f' :: 'i' :: 'g' :: '"' ::
      '>' :: X) = some 11 := by
  simp [findChar]

theorem matchMetaAt_canonical (E T : List Char) (hE : ∀ c ∈ E, c ≠ '<') :
    matchMetaAt (Svg.metaOpenIns ++ (E ++ (closePat ++ T))) =
      some (Svg.metaOpenIns, E, closePat ++ T) := by
  have h9 : (Svg.metaOpenIns ++ (E ++ (closePat ++ T))).drop 9 =
      ' ' :: 'i' :: 'd' :: '=' :: '"' :: 'r' :: 'e' :: 'f' :: 'i' :: 'g' :: '"' :: '>' ::
        (E ++ (closePat ++ T)) := rfl
  have h21 : (Svg.metaOpenIns ++ (E ++ (closePat ++ T))).drop (9 + 11 + 1) =
      E ++ (closePat ++ T) := rfl
  have ht21 : (Svg.metaOpenIns ++ (E ++ (closePat ++ T))).take (9 + 11 + 1) =
      Svg.metaOpenIns := rfl
  rw [matchMetaAt]
  rw [if_pos (show ciIsPrefix metaPat (Svg.metaOpenIns ++ (E ++ (closePat ++ T))) = true
    from rfl)]
  rw [h9]
  simp only []
  rw [if_neg (show ¬(isWordChar ' ' = true) by decide)]
  rw [findChar_gt_open]
  simp only []
  rw [if_pos (show hasIdRefig 'a'
    ((' ' :: 'i' :: 'd' :: '=' :: '"' :: 'r' :: 'e' :: 'f' :: 'i' :: 'g' :: '"' :: '>' ::
      (E ++ (closePat ++ T))).take 11) = true from rfl)]
  rw [h21, findCI_closePat E T hE]
  simp only []
  rw [List.take_left' rfl, List.drop_left' rfl]
  rw [ht21]

theorem escapeHtml1_no_lt (a c : Char) (h : c ∈ escapeHtml1 a) : c ≠ '<' := by
  rw [escapeHtml1] at h
  split at h
  · intro hc; subst hc; revert h; decide
  · split at h
    · intro hc; subst hc; revert h; decide
    · split at h
      · intro hc; subst hc; revert h; decide
      · split at h
        · intro hc; subst hc; revert h; decide
        · split at h
          · intro hc; subst hc; revert h; decide
          · rename_i h1 h2 h3 h4 h5
            simp at h
            subst h
            exact h2

theorem escapeHtml_no_lt : ∀ (l : List Char) (c : Char), c ∈ escapeHtml l → c ≠ '<' := by
  intro l
  induction l with
  | nil => intro c h; simp [escapeHtml] at h
  | cons a l ih =>
    intro c h
    rw [escapeHtml, List.mem_append] at h
    cases h with
    | inl h => exact escapeHtml1_no_lt a c h
    | inr h => exact ih c h

theorem findMetaSplit_canonical_after (A post E : List Char)
    (hocc : Svg.noMetaOccB (A ++ post) = true) (hE : ∀ c ∈ E, c ≠ '<') :
    findMetaSplit ((A ++ ['\n', ' ', ' ']) ++ (Svg.metaOpenIns ++ (E ++ (closePat ++ ('\n' :: post))))) =
      some ⟨A ++ ['\n', ' ', ' '], Svg.metaOpenIns, E, closePat ++ ('\n' :: post)⟩ := by
  have habs : ∀ q ∈ metaPat, lowerC '\n' ≠ q := by decide
  have habs2 : ∀ q ∈ metaPat, lowerC ' ' ≠ q := by decide
  rw [findMetaSplit_append]
  · rw [show findMetaSplit (Svg.metaOpenIns ++ (E ++ (closePat ++ ('\n' :: post)))) =
        some ⟨[], Svg.metaOpenIns, E, closePat ++ ('\n' :: post)⟩ from
      findMetaSplit_cons_match '<' _ _ _ _ (matchMetaAt_canonical E ('\n' :: post) hE)]
    simp
  · intro i hi
    by_cases hiA : i < A.length
    · have hdrop : (A ++ ['\n', ' ', ' ']).drop i = A.drop i ++ ['\n', ' ', ' '] :=
        List.drop_append_of_le_length (by omega)
      rw [hdrop]
      by_cases hlong : 9 ≤ (A.drop i).length
      · rw [show A.drop i ++ ['\n', ' ', ' '] ++
            (Svg.metaOpenIns ++ (E ++ (closePat ++ ('\n' :: post)))) =
          A.drop i ++ (['\n', ' ', ' '] ++
            (Svg.metaOpenIns ++ (E ++ (closePat ++ ('\n' :: post))))) from by
          simp [List.append_assoc]]
        rw [ciIsPrefix_append_long metaPat (A.drop i) _ (by simpa [metaPat] using hlong)]
        have h1 : ciIsPrefix metaPat ((A ++ post).drop i) = false :=
          Svg.noMetaOccB_drop (A ++ post) hocc i
        rw [List.drop_append_of_le_length (by omega)] at h1
        rw [ciIsPrefix_append_long metaPat (A.drop i) post
          (by simpa [metaPat] using hlong)] at h1
        exact h1
      · rw [show A.drop i ++ ['\n', ' ', ' '] ++
            (Svg.metaOpenIns ++ (E ++ (closePat ++ ('\n' :: post)))) =
          A.drop i ++ ('\n' :: (' ' :: ' ' ::
            (Svg.metaOpenIns ++ (E ++ (closePat ++ ('\n' :: post)))))) from by
          simp [List.append_assoc]]
        exact ciIsPrefix_append_absent metaPat (A.drop i) '\n' _
          (by simp only [List.length_drop] at hlong; simp [metaPat, List.length_drop]; omega) habs
    · have h3 : i - A.length < 3 := by
        have := List.length_append A ['\n', ' ', ' ']
        simp at hi
        omega
      have hdrop : (A ++ ['\n', ' ', ' ']).drop i =
          ['\n', ' ', ' '].drop (i - A.length) := by
        rw [List.drop_append_eq_append_drop]
        rw [List.drop_of_length_le (by omega)]
        simp
      rw [hdrop]
      interval_cases hcase : (i - A.length)
      · exact ciIsPrefix_append_absent metaPat [] '\n' _ (by simp [metaPat]) habs
      · exact ciIsPrefix_append_absent metaPat [] ' ' _ (by simp [metaPat]) habs2
      · exact ciIsPrefix_append_absent metaPat [] ' ' _ (by simp [metaPat]) habs2

theorem isDigit_not_pyspace {c : Char} (h : c.isDigit = true) : isPySpace c = false := by
  by_contra hw
  rw [Bool.not_eq_false] at hw
  simp only [isPySpace, Bool.or_eq_true, decide_eq_true_eq] at hw
  rcases hw with ((((rfl | rfl) | rfl) | rfl) | rfl) | rfl <;> exact absurd h (by decide)

theorem dumps_getLast_py (v : Json) :
    ∀ c, (dumpsJson v).getLast? = some c → isPySpace c = false := by
  cases v with
  | null =>
    intro c hc
    have h : some 'l' = some c := hc
    injection h with h2
    subst h2
    decide
  | bool b =>
    cases b with
    | false =>
      intro c hc
      have h : some 'e' = some c := hc
      injection h with h2
      subst h2
      decide
    | true =>
      intro c hc
      have h : some 'e' = some c := hc
      injection h with h2
      subst h2
      decide
  | num i =>
    intro c hc
    have hi : dumpsJson (.num i) = intChars i := rfl
    rw [hi] at hc
    unfold intChars at hc
    by_cases hneg : i < 0
    · rw [if_pos hneg] at hc
      cases hgl : (natChars i.natAbs).getLast? with
      | none =>
        exact absurd (List.getLast?_eq_none_iff.mp hgl) (natChars_ne_nil _)
      | some c2 =>
        rw [show ('-' :: natChars i.natAbs) = ['-'] ++ natChars i.natAbs by simp,
          List.getLast?_append, hgl] at hc
        simp only [Option.or_some] at hc
        injection hc with h2
        subst h2
        exact isDigit_not_pyspace (natChars_getLast_digit _ _ hgl)
    · rw [if_neg hneg] at hc
      exact isDigit_not_pyspace (natChars_getLast_digit _ _ hc)
  | str s =>
    intro c hc
    rw [show dumpsJson (.str s) = '"' :: (escString s ++ ['"']) from rfl,
      getLast?_cons_concat] at hc
    injection hc with h2
    subst h2
    decide
  | arr es =>
    intro c hc
    rw [show dumpsJson (.arr es) = '[' :: (dumpsElems es ++ [']']) from rfl,
      getLast?_cons_concat] at hc
    injection hc with h2
    subst h2
    decide
  | obj ms =>
    intro c hc
    rw [show dumpsJson (.obj ms) =
        '\x7b' :: (joinComma ((sortPairsByKey (serMembs ms)).map Prod.snd) ++ ['\x7d']) from rfl,
      getLast?_cons_concat] at hc
    injection hc with h2
    subst h2
    decide

theorem pyStrip_eq_self {l : List Char}
    (h1 : ∀ x, l.head? = some x → isPySpace x = false)
    (h2 : ∀ x, l.getLast? = some x → isPySpace x = false) : pyStrip l = l := by
  unfold pyStrip
  have e1 : l.dropWhile isPySpace = l := by
    cases l with
    | nil => rfl
    | cons c t =>
      rw [List.dropWhile_cons, h1 c rfl]
      simp
  rw [e1]
  have e2 : l.reverse.dropWhile isPySpace = l.reverse := by
    cases hr : l.reverse with
    | nil => rfl
    | cons x rt =>
      have hx : l.getLast? = some x := by
        rw [← List.head?_reverse, hr]
        rfl
      rw [List.dropWhile_cons, h2 x hx]
      simp
  rw [e2, List.reverse_reverse]

theorem pyStrip_dumps (v : Json) : pyStrip (dumpsJson v) = dumpsJson v := by
  apply pyStrip_eq_self
  · intro x hx
    obtain ⟨c, cs, heq, hcase⟩ := dumps_head v
    rw [heq] at hx
    simp at hx
    subst hx
    rcases hcase with rfl | rfl | rfl | rfl | rfl | rfl | rfl | hd
    · decide
    · decide
    · decide
    · decide
    · decide
    · decide
    · decide
    · exact isDigit_not_pyspace hd
  · exact dumps_getLast_py v

theorem dumps_ne_nil (v : Json) : dumpsJson v ≠ [] := by
  obtain ⟨c, cs, heq, _⟩ := dumps_head v
  rw [heq]
  simp

theorem matchSvgAt_decomp {s tg rst : List Char}
    (h : matchSvgAt s = some (tg, rst)) : s = tg ++ rst := by
  rw [matchSvgAt] at h
  split at h
  · split at h
    · exact absurd h (by simp)
    · split at h
      · exact absurd h (by simp)
      · split at h
        · exact absurd h (by simp)
        · rename_i g hg
          injection h with h2
          have htg : List.take (4 + g + 1) s = tg := congrArg Prod.fst h2
          have hrst : List.drop (4 + g + 1) s = rst := congrArg Prod.snd h2
          rw [← htg, ← hrst, List.take_append_drop]
  · exact absurd h (by simp)

theorem findSvgSplit_decomp : ∀ (t pre tag post : List Char),
    findSvgSplit t = some (pre, tag, post) → t = pre ++ (tag ++ post) := by
  intro t
  induction t with
  | nil => intro pre tag post h; exact absurd h (by simp [findSvgSplit])
  | cons c cs ih =>
    intro pre tag post h
    rw [show findSvgSplit (c :: cs) =
      (match matchSvgAt (c :: cs) with
       | some (tag2, rest) => some ([], tag2, rest)
       | none => (findSvgSplit cs).map (fun q => (c :: q.1, q.2.1, q.2.2))) from rfl] at h
    cases hm : matchSvgAt (c :: cs) with
    | some p =>
      rw [hm] at h
      have h2 : some (([] : List Char), p.1, p.2) = some (pre, tag, post) := by
        rw [← h]
      injection h2 with h3
      have hp : pre = [] := (congrArg (fun q => q.1) h3).symm
      have ht : tag = p.1 := (congrArg (fun q => q.2.1) h3).symm
      have hpo : post = p.2 := (congrArg (fun q => q.2.2) h3).symm
      subst hp ht hpo
      simpa using matchSvgAt_decomp (show matchSvgAt (c :: cs) = some (p.1, p.2) from by
        rw [hm])
    | none =>
      rw [hm] at h
      cases hf : findSvgSplit cs with
      | none => rw [hf] at h; exact absurd h (by simp)
      | some q =>
        rw [hf] at h
        simp only [Option.map_some] at h
        injection h with h3
        have hp : pre = c :: q.1 := (congrArg (fun z => z.1) h3).symm
        have ht : tag = q.2.1 := (congrArg (fun z => z.2.1) h3).symm
        have hpo : post = q.2.2 := (congrArg (fun z => z.2.2) h3).symm
        subst hp ht hpo
        have := ih q.1 q.2.1 q.2.2 (by rw [hf])
        rw [List.cons_append, ← this]

theorem noMetaOccB_cons {c : Char} {t : List Char}
    (h1 : ciIsPrefix metaPat (c :: t) = false) (h2 : Svg.noMetaOccB t = true) :
    Svg.noMetaOccB (c :: t) = true := by
  rw [Svg.noMetaOccB, h1, h2]
  rfl

theorem extract_canonical (A post E : List Char) (M : Json)
    (hocc : Svg.noMetaOccB (A ++ post) = true)
    (hE : E = escapeHtml (dumpsJson M))
    (hw : jsonWF M = true) :
    Svg.extract_metadata (encodeUtf8
      ((A ++ ['\n', ' ', ' ']) ++ (Svg.metaOpenIns ++ (E ++ (closePat ++ ('\n' :: post)))))) =
      .ok M := by
  rw [Svg.extract_metadata, decodeUtf8_encodeUtf8]
  simp only []
  rw [findMetaSplit_canonical_after A post E hocc
    (fun c hc => escapeHtml_no_lt _ c (hE ▸ hc))]
  simp only []
  rw [hE, pyUnescape_escapeHtml, pyStrip_dumps]
  rw [if_neg (by simpa using dumps_ne_nil M)]
  rw [loads_dumps M hw]

theorem embedText_insert (text pre tag post : List Char) (payload : List Char)
    (hocc : Svg.noMetaOccB text = true)
    (hs : findSvgSplit text = some (pre, tag, post)) :
    Svg.embedText text payload =
      .ok (((pre ++ tag) ++ ['\n', ' ', ' ']) ++
        (Svg.metaOpenIns ++ (escapeHtml payload ++ (closePat ++ ('\n' :: post))))) := by
  rw [Svg.embedText]
  rw [findMetaSplit_none_of_noOcc text hocc]
  simp only []
  rw [hs]
  simp only []
  congr 1
  simp [Svg.insFragment, List.append_assoc]

theorem svg_roundtrip_insert (svg : List Nat) (M : Json) (text pre tag post : List Char)
    (hdec : decodeUtf8 svg = some text)
    (hocc : Svg.noMetaOccB text = true)
    (hs : findSvgSplit text = some (pre, tag, post))
    (hw : jsonWF M = true) :
    (Svg.embed_metadata svg M).bind Svg.extract_metadata = .ok M := by
  rw [Svg.embed_metadata, hdec]
  simp only []
  rw [embedText_insert text pre tag post ((dumpsJson M)) hocc hs]
  show Svg.extract_metadata _ = _
  apply extract_canonical (pre ++ tag) post _ M _ rfl hw
  have hT := findSvgSplit_decomp text pre tag post hs
  rw [List.append_assoc, ← hT]
  exact hocc

theorem embedText_replace (text : List Char) (mm : MetaMatch) (payload : List Char)
    (h : findMetaSplit text = some mm) :
    Svg.embedText text payload =
      .ok (mm.pre ++ (mm.openTag ++ (escapeHtml payload ++ mm.tail))) := by
  rw [Svg.embedText, h]

theorem svg_reembed (svg : List Nat) (M1 M2 : Json) (text pre tag post : List Char)
    (hdec : decodeUtf8 svg = some text)
    (hocc : Svg.noMetaOccB text = true)
    (hs : findSvgSplit text = some (pre, tag, post))
    (hw2 : jsonWF M2 = true) :
    ∀ out, (Svg.embed_metadata svg M1).bind (fun b => Svg.embed_metadata b M2) = .ok out →
      Svg.extract_metadata out = .ok M2 ∧
        (match decodeUtf8 out with
         | some t => Svg.uniqueMeta t
         | none => false) = true := by
  have hoccA : Svg.noMetaOccB ((pre ++ tag) ++ post) = true := by
    have hT := findSvgSplit_decomp text pre tag post hs
    rw [List.append_assoc, ← hT]
    exact hocc
  have hE1 : ∀ c ∈ escapeHtml (dumpsJson M1), c ≠ '<' := fun c hc => escapeHtml_no_lt _ c hc
  have hE2 : ∀ c ∈ escapeHtml (dumpsJson M2), c ≠ '<' := fun c hc => escapeHtml_no_lt _ c hc
  have hcanon1 := findMetaSplit_canonical_after (pre ++ tag) post (escapeHtml (dumpsJson M1))
    hoccA hE1
  intro out hout
  rw [Svg.embed_metadata, hdec] at hout
  simp only [] at hout
  rw [embedText_insert text pre tag post (dumpsJson M1) hocc hs] at hout
  simp only [Except.map, Except.bind] at hout
  rw [Svg.embed_metadata, decodeUtf8_encodeUtf8] at hout
  simp only [] at hout
  rw [embedText_replace _ _ (dumpsJson M2) hcanon1] at hout
  simp only [Except.map] at hout
  have hout2 : encodeUtf8 (((pre ++ tag) ++ ['\n', ' ', ' ']) ++
      (Svg.metaOpenIns ++ (escapeHtml (dumpsJson M2) ++ (closePat ++ ('\n' :: post))))) = out := by
    injection hout
  subst hout2
  constructor
  · exact extract_canonical (pre ++ tag) post _ M2 hoccA rfl hw2
  · rw [decodeUtf8_encodeUtf8]
    simp only []
    rw [Svg.uniqueMeta]
    rw [findMetaSplit_canonical_after (pre ++ tag) post (escapeHtml (dumpsJson M2)) hoccA hE2]
    simp only []
    rw [show (closePat ++ ('\n' :: post)).drop 11 = '\n' :: post from List.drop_left' rfl]
    rw [findMetaSplit_none_of_noOcc ('\n' :: post) (noMetaOccB_cons
      (ciIsPrefix_append_absent metaPat [] '\n' post (by simp [metaPat]) (by decide))
      (Svg.noMetaOccB_append_right (pre ++ tag) post hoccA))]
    rfl

theorem svg_formatErr_eq (svg : List Nat) :
    Svg.isFormatError (Svg.extract_metadata svg) = svgFormatErrCond svg := by
  rw [Svg.extract_metadata, svgFormatErrCond]
  cases decodeUtf8 svg with
  | none => rfl
  | some text =>
    simp only []
    cases findMetaSplit text with
    | none => rfl
    | some mm =>
      simp only []
      by_cases he : (pyStrip (pyUnescape mm.body)).isEmpty
      · rw [if_pos he, he]
        rfl
      · rw [if_neg he, Bool.eq_false_iff.mpr he]
        cases loads (pyStrip (pyUnescape mm.body)) <;> rfl

theorem isFormatError_resStatus (res : Except Png.Err Json) (h : res ≠ .error .notPng) :
    Png.isFormatError res =
      ((Png.resStatus res == Png.ScanStatus.cleanEnd) ||
        (Png.resStatus res == Png.ScanStatus.emptyKeyword)) := by
  cases res with
  | ok v => rfl
  | error e =>
    cases e with
    | notPng => exact absurd rfl h
    | noMetadata => rfl
    | invalidTextChunk => rfl
    | structError => rfl
    | unicodeError => rfl
    | jsonError => rfl

theorem png_formatErr_eq (png : List Nat) :
    Png.isFormatError (Png.extract_metadata png) = pngFormatErrCond png := by
  rw [Png.extract_metadata, pngFormatErrCond]
  by_cases hp : pngSig.isPrefixOf png = true
  · rw [if_pos hp, hp]
    obtain ⟨hcorr, hne⟩ := Png.extractLoop_status (png.drop 8)
    rw [isFormatError_resStatus _ hne, ← hcorr]
    simp
  · rw [if_neg hp]
    rw [Bool.eq_false_iff.mpr hp]
    rfl


/-! ### Calendar arithmetic, ISO parsing bounds, and the timestamp token -/

theorem yoe_recover (yoe doy : Nat) (h1 : yoe ≤ 399)
    (h2 : doy ≤ 364 ∨ (doy = 365 ∧ (yoe + 1) % 4 = 0 ∧ (¬(yoe + 1) % 100 = 0 ∨ yoe = 399))) :
    (yoe * 365 + yoe / 4 - yoe / 100 + doy
      - (yoe * 365 + yoe / 4 - yoe / 100 + doy) / 1460
      + (yoe * 365 + yoe / 4 - yoe / 100 + doy) / 36524
      - (yoe * 365 + yoe / 4 - yoe / 100 + doy) / 146096) / 365 = yoe := by
  rcases h2 with h2 | ⟨rfl, h3, h4⟩
  · interval_cases yoe <;> omega
  · interval_cases yoe <;> omega

theorem civilFromDaysN_decomp (era yoe doy : Nat) (hyoe : yoe ≤ 399)
    (hdoy : doy ≤ 364 ∨ (doy = 365 ∧ (yoe + 1) % 4 = 0 ∧ (¬(yoe + 1) % 100 = 0 ∨ yoe = 399))) :
    civilFromDaysN (era * 146097 + (yoe * 365 + yoe / 4 - yoe / 100 + doy)) =
      (if (if (5 * doy + 2) / 153 < 10 then (5 * doy + 2) / 153 + 3
            else (5 * doy + 2) / 153 - 9) ≤ 2
        then yoe + era * 400 + 1 else yoe + era * 400,
       (if (5 * doy + 2) / 153 < 10 then (5 * doy + 2) / 153 + 3 else (5 * doy + 2) / 153 - 9),
       doy - (153 * ((5 * doy + 2) / 153) + 2) / 5 + 1) := by
  rw [civilFromDaysN]
  have hdoe : yoe * 365 + yoe / 4 - yoe / 100 + doy ≤ 146096 := by omega
  have h1 : (era * 146097 + (yoe * 365 + yoe / 4 - yoe / 100 + doy)) / 146097 = era := by
    omega
  have h2 : (era * 146097 + (yoe * 365 + yoe / 4 - yoe / 100 + doy)) % 146097 =
      yoe * 365 + yoe / 4 - yoe / 100 + doy := by
    omega
  simp only [h1, h2]
  have h3 := yoe_recover yoe doy hyoe hdoy
  rw [h3]
  have h4 : yoe * 365 + yoe / 4 - yoe / 100 + doy - (365 * yoe + yoe / 4 - yoe / 100) = doy := by
    omega
  rw [h4]

theorem civil_roundtrip (y m d : Nat) (hy1 : 1 ≤ y) (hy2 : y ≤ 9999)
    (hm1 : 1 ≤ m) (hm2 : m ≤ 12) (hd1 : 1 ≤ d) (hd2 : d ≤ daysInMonth y m) :
    civilFromDaysN (daysFromCivilN y m d) = (y, m, d) := by
  rw [daysInMonth] at hd2
  have hd31 : d ≤ 31 := by split_ifs at hd2 <;> omega
  have hd29 : m = 2 → d ≤ 29 := by
    intro hm
    rw [if_pos hm] at hd2
    split_ifs at hd2 <;> omega
  have hd28 : m = 2 → ¬(y % 4 = 0 ∧ (¬y % 100 = 0 ∨ y % 400 = 0)) → d ≤ 28 := by
    intro hm hnl
    rw [if_pos hm] at hd2
    have hl : isLeap y = false := by
      by_contra hb
      rw [Bool.not_eq_false] at hb
      rw [isLeap] at hb
      simp only [Bool.and_eq_true, Bool.or_eq_true, decide_eq_true_eq, ne_eq] at hb
      exact hnl hb
    rw [hl] at hd2
    simpa using hd2
  have hd30 : m = 4 ∨ m = 6 ∨ m = 9 ∨ m = 11 → d ≤ 30 := by
    intro hm
    rw [if_neg (by omega), if_pos hm] at hd2
    exact hd2
  have hd29x : m ≠ 2 ∨ d ≤ 29 := by
    rcases eq_or_ne m 2 with h | h
    · exact Or.inr (hd29 h)
    · exact Or.inl h
  have hd28x : m ≠ 2 ∨ (y % 4 = 0 ∧ (¬y % 100 = 0 ∨ y % 400 = 0)) ∨ d ≤ 28 := by
    rcases eq_or_ne m 2 with h | h
    · by_cases hl : y % 4 = 0 ∧ (¬y % 100 = 0 ∨ y % 400 = 0)
      · exact Or.inr (Or.inl hl)
      · exact Or.inr (Or.inr (hd28 h hl))
    · exact Or.inl h
  have hd30x : ¬(m = 4 ∨ m = 6 ∨ m = 9 ∨ m = 11) ∨ d ≤ 30 := by
    by_cases h : m = 4 ∨ m = 6 ∨ m = 9 ∨ m = 11
    · exact Or.inr (hd30 h)
    · exact Or.inl h
  clear hd2 hd29 hd28 hd30
  by_cases hmLE : m ≤ 2
  · have hshape : daysFromCivilN y m d =
        ((y - 1) / 400) * 146097 +
          (((y - 1) % 400) * 365 + ((y - 1) % 400) / 4 - ((y - 1) % 400) / 100 +
            ((153 * ((m + 9) % 12) + 2) / 5 + d - 1)) := by
      rw [daysFromCivilN]
      simp only [if_pos hmLE]
    have hdoy : (153 * ((m + 9) % 12) + 2) / 5 + d - 1 ≤ 364 ∨
        ((153 * ((m + 9) % 12) + 2) / 5 + d - 1 = 365 ∧
          ((y - 1) % 400 + 1) % 4 = 0 ∧
          (¬((y - 1) % 400 + 1) % 100 = 0 ∨ (y - 1) % 400 = 399)) := by
      omega
    rw [hshape, civilFromDaysN_decomp _ _ _ (by omega) hdoy]
    simp only [Prod.mk.injEq]
    interval_cases m
    · have hmp : (5 * ((153 * ((1 + 9) % 12) + 2) / 5 + d - 1) + 2) / 153 = 10 := by omega
      rw [hmp]
      split_ifs <;> refine ⟨by omega, by omega, by omega⟩
    · have hmp : (5 * ((153 * ((2 + 9) % 12) + 2) / 5 + d - 1) + 2) / 153 = 11 := by omega
      rw [hmp]
      split_ifs <;> refine ⟨by omega, by omega, by omega⟩
  · have hshape : daysFromCivilN y m d =
        (y / 400) * 146097 +
          ((y % 400) * 365 + (y % 400) / 4 - (y % 400) / 100 +
            ((153 * ((m + 9) % 12) + 2) / 5 + d - 1)) := by
      rw [daysFromCivilN]
      simp only [if_neg hmLE]
    have hdoy : (153 * ((m + 9) % 12) + 2) / 5 + d - 1 ≤ 364 ∨
        ((153 * ((m + 9) % 12) + 2) / 5 + d - 1 = 365 ∧
          (y % 400 + 1) % 4 = 0 ∧
          (¬(y % 400 + 1) % 100 = 0 ∨ y % 400 = 399)) := by
      left
      clear hshape hd29x hd28x hd30x hy1 hy2
      omega
    rw [hshape, civilFromDaysN_decomp _ _ _ (by omega) hdoy]
    simp only [Prod.mk.injEq]
    interval_cases m
    · have hmp : (5 * ((153 * ((3 + 9) % 12) + 2) / 5 + d - 1) + 2) / 153 = 0 := by omega
      rw [hmp]
      split_ifs <;> refine ⟨by omega, by omega, by omega⟩
    · have hmp : (5 * ((153 * ((4 + 9) % 12) + 2) / 5 + d - 1) + 2) / 153 = 1 := by omega
      rw [hmp]
      split_ifs <;> refine ⟨by omega, by omega, by omega⟩
    · have hmp : (5 * ((153 * ((5 + 9) % 12) + 2) / 5 + d - 1) + 2) / 153 = 2 := by omega
      rw [hmp]
      split_ifs <;> refine ⟨by omega, by omega, by omega⟩
    · have hmp : (5 * ((153 * ((6 + 9) % 12) + 2) / 5 + d - 1) + 2) / 153 = 3 := by omega
      rw [hmp]
      split_ifs <;> refine ⟨by omega, by omega, by omega⟩
    · have hmp : (5 * ((153 * ((7 + 9) % 12) + 2) / 5 + d - 1) + 2) / 153 = 4 := by omega
      rw [hmp]
      split_ifs <;> refine ⟨by omega, by omega, by omega⟩
    · have hmp : (5 * ((153 * ((8 + 9) % 12) + 2) / 5 + d - 1) + 2) / 153 = 5 := by omega
      rw [hmp]
      split_ifs <;> refine ⟨by omega, by omega, by omega⟩
    · have hmp : (5 * ((153 * ((9 + 9) % 12) + 2) / 5 + d - 1) + 2) / 153 = 6 := by omega
      rw [hmp]
      split_ifs <;> refine ⟨by omega, by omega, by omega⟩
    · have hmp : (5 * ((153 * ((10 + 9) % 12) + 2) / 5 + d - 1) + 2) / 153 = 7 := by omega
      rw [hmp]
      split_ifs <;> refine ⟨by omega, by omega, by omega⟩
    · have hmp : (5 * ((153 * ((11 + 9) % 12) + 2) / 5 + d - 1) + 2) / 153 = 8 := by omega
      rw [hmp]
      split_ifs <;> refine ⟨by omega, by omega, by omega⟩
    · have hmp : (5 * ((153 * ((12 + 9) % 12) + 2) / 5 + d - 1) + 2) / 153 = 9 := by omega
      rw [hmp]
      split_ifs <;> refine ⟨by omega, by omega, by omega⟩

theorem digitVal_le {c : Char} (h : c.isDigit = true) : digitVal c ≤ 9 := by
  have := isDigit_toNat h
  rw [digitVal]
  omega

theorem parse2_le {s : List Char} {n : Nat} {r : List Char} (h : parse2 s = some (n, r)) :
    n ≤ 99 := by
  match s with
  | [] => exact absurd h (by simp [parse2])
  | [a] => exact absurd h (by simp [parse2])
  | a :: b :: t =>
    rw [parse2] at h
    split at h
    · rename_i hab
      rw [Bool.and_eq_true] at hab
      injection h with h2
      have h3 : digitVal a * 10 + digitVal b = n := congrArg Prod.fst h2
      have da := digitVal_le hab.1
      have db := digitVal_le hab.2
      omega
    · exact absurd h (by simp)

theorem parse4_le {s : List Char} {n : Nat} {r : List Char} (h : parse4 s = some (n, r)) :
    n ≤ 9999 := by
  match s with
  | [] => exact absurd h (by simp [parse4])
  | [a] => exact absurd h (by simp [parse4])
  | [a, b] => exact absurd h (by simp [parse4])
  | [a, b, c] => exact absurd h (by simp [parse4])
  | a :: b :: c :: d :: t =>
    rw [parse4] at h
    split at h
    · rename_i hab
      rw [Bool.and_eq_true, Bool.and_eq_true, Bool.and_eq_true] at hab
      injection h with h2
      have h3 : ((digitVal a * 10 + digitVal b) * 10 + digitVal c) * 10 + digitVal d = n :=
        congrArg Prod.fst h2
      have da := digitVal_le hab.1.1.1
      have db := digitVal_le hab.1.1.2
      have dc := digitVal_le hab.1.2
      have dd := digitVal_le hab.2
      omega
    · exact absurd h (by simp)

theorem parseOff_fields {y mo d hh mi ss us : Nat} {r : List Char} {t : PyDateTime}
    (h : parseOff y mo d hh mi ss us r = some t) :
    t.year = y ∧ t.month = mo ∧ t.day = d ∧ t.hour = hh ∧ t.minute = mi ∧ t.second = ss := by
  match r with
  | [] =>
    rw [parseOff] at h
    injection h with h2
    subst h2
    exact ⟨rfl, rfl, rfl, rfl, rfl, rfl⟩
  | c :: r2 =>
    rw [parseOff] at h
    by_cases hz : c = 'Z' ∨ c = 'z'
    · rw [if_pos hz] at h
      cases r2 with
      | nil =>
        injection h with h2
        subst h2
        exact ⟨rfl, rfl, rfl, rfl, rfl, rfl⟩
      | cons x xs => exact absurd h (by simp)
    · rw [if_neg hz] at h
      by_cases hpm : c = '+' ∨ c = '-'
      · rw [if_pos hpm] at h
        cases hp2 : parse2 r2 with
        | none => rw [hp2] at h; exact absurd h (by simp)
        | some p =>
          obtain ⟨oh, r1⟩ := p
          rw [hp2] at h
          simp only [] at h
          cases hec : expectChar ':' r1 with
          | none => rw [hec] at h; exact absurd h (by simp)
          | some rr =>
            rw [hec] at h
            simp only [] at h
            cases hp2b : parse2 rr with
            | none => rw [hp2b] at h; exact absurd h (by simp)
            | some q =>
              obtain ⟨om, r3⟩ := q
              rw [hp2b] at h
              simp only [] at h
              split at h
              · injection h with h2
                subst h2
                exact ⟨rfl, rfl, rfl, rfl, rfl, rfl⟩
              · exact absurd h (by simp)
      · rw [if_neg hpm] at h
        exact absurd h (by simp)

theorem pyFrac_fields {y mo d hh mi ss : Nat} {r : List Char} {t : PyDateTime}
    (h : pyFrac y mo d hh mi ss r = some t) :
    t.year = y ∧ t.month = mo ∧ t.day = d ∧ t.hour = hh ∧ t.minute = mi ∧ t.second = ss := by
  match r with
  | [] =>
    rw [pyFrac] at h
    exact parseOff_fields h
  | c :: r11 =>
    rw [pyFrac] at h
    split at h
    · split at h
      · exact parseOff_fields h
      · exact absurd h (by simp)
    · exact parseOff_fields h

theorem pySec_fields {y mo d hh mi : Nat} {r : List Char} {t : PyDateTime}
    (h : pySec y mo d hh mi r = some t) :
    t.year = y ∧ t.month = mo ∧ t.day = d ∧ t.hour = hh ∧ t.minute = mi ∧ t.second ≤ 59 := by
  match r with
  | [] =>
    rw [pySec] at h
    obtain ⟨h1, h2, h3, h4, h5, h6⟩ := parseOff_fields h
    exact ⟨h1, h2, h3, h4, h5, by omega⟩
  | c :: r9 =>
    rw [pySec] at h
    split at h
    · cases hp : parse2 r9 with
      | none => rw [hp] at h; exact absurd h (by simp)
      | some q =>
        obtain ⟨ss, r10⟩ := q
        rw [hp] at h
        simp only [] at h
        split at h
        · rename_i hss
          obtain ⟨h1, h2, h3, h4, h5, h6⟩ := pyFrac_fields h
          exact ⟨h1, h2, h3, h4, h5, by omega⟩
        · exact absurd h (by simp)
    · obtain ⟨h1, h2, h3, h4, h5, h6⟩ := parseOff_fields h
      exact ⟨h1, h2, h3, h4, h5, by omega⟩

theorem pyTime_fields {y mo d : Nat} {r : List Char} {t : PyDateTime}
    (h : pyTime y mo d r = some t) :
    t.year = y ∧ t.month = mo ∧ t.day = d ∧ t.hour ≤ 23 ∧ t.minute ≤ 59 ∧ t.second ≤ 59 := by
  match r with
  | [] =>
    rw [pyTime] at h
    injection h with h2
    subst h2
    refine ⟨rfl, rfl, rfl, ?_, ?_, ?_⟩ <;> simp
  | sep :: r5 =>
    rw [pyTime] at h
    split at h
    · cases hp : parse2 r5 with
      | none => rw [hp] at h; exact absurd h (by simp)
      | some q =>
        obtain ⟨hh, r6⟩ := q
        rw [hp] at h
        simp only [] at h
        cases hec : expectChar ':' r6 with
        | none => rw [hec] at h; exact absurd h (by simp)
        | some r7 =>
          rw [hec] at h
          simp only [] at h
          cases hp2 : parse2 r7 with
          | none => rw [hp2] at h; exact absurd h (by simp)
          | some q2 =>
            obtain ⟨mi, r8⟩ := q2
            rw [hp2] at h
            simp only [] at h
            split at h
            · rename_i hhm
              obtain ⟨h1, h2, h3, h4, h5, h6⟩ := pySec_fields h
              exact ⟨h1, h2, h3, by omega, by omega, h6⟩
            · exact absurd h (by simp)
    · exact absurd h (by simp)

theorem pyFromIso_bounds {s : List Char} {t : PyDateTime} (h : pyFromIso s = some t) :
    1 ≤ t.year ∧ t.year ≤ 9999 ∧ 1 ≤ t.month ∧ t.month ≤ 12 ∧ 1 ≤ t.day ∧
      t.day ≤ daysInMonth t.year t.month ∧ t.hour ≤ 23 ∧ t.minute ≤ 59 ∧ t.second ≤ 59 := by
  rw [pyFromIso] at h
  cases hp4 : parse4 s with
  | none => rw [hp4] at h; exact absurd h (by simp)
  | some q =>
    obtain ⟨y, r0⟩ := q
    have hy9999 := parse4_le hp4
    rw [hp4] at h
    simp only [] at h
    cases he1 : expectChar '-' r0 with
    | none => rw [he1] at h; exact absurd h (by simp)
    | some r1 =>
      rw [he1] at h
      simp only [] at h
      cases hp2 : parse2 r1 with
      | none => rw [hp2] at h; exact absurd h (by simp)
      | some q2 =>
        obtain ⟨mo, r2⟩ := q2
        rw [hp2] at h
        simp only [] at h
        cases he2 : expectChar '-' r2 with
        | none => rw [he2] at h; exact absurd h (by simp)
        | some r3 =>
          rw [he2] at h
          simp only [] at h
          cases hp3 : parse2 r3 with
          | none => rw [hp3] at h; exact absurd h (by simp)
          | some q3 =>
            obtain ⟨d, r4⟩ := q3
            rw [hp3] at h
            simp only [] at h
            split at h
            · rename_i hcond
              obtain ⟨h1, h2, h3, h4, h5, h6⟩ := pyTime_fields h
              rw [h1, h2, h3]
              exact ⟨hcond.1, by omega, hcond.2.1, hcond.2.2.1, hcond.2.2.2.1,
                hcond.2.2.2.2, h4, h5, h6⟩
            · exact absurd h (by simp)

theorem formatTs_spec_parsed (now : PyDateTime) (s : List Char) (t : PyDateTime)
    (hp : pyFromIso s = some t) (hoff : t.tzOffMinutes = none ∨ t.tzOffMinutes = some 0) :
    Core.formatTimestampToken now (some (.str s)) = specTimestampToken now (some (.str s)) := by
  rw [Core.formatTimestampToken, specTimestampToken]
  simp only []
  rw [hp]
  simp only []
  rcases hoff with hoff | hoff
  · rw [specUtcToken, hoff]
  · rw [specUtcToken, hoff]
    simp only []
    obtain ⟨hy1, hy2, hm1, hm2, hd1, hd2, hh, hmi, _⟩ := pyFromIso_bounds hp
    have e1 : (((daysFromCivilN t.year t.month t.day * 1440 + t.hour * 60 + t.minute : Nat) :
        Int) - (0 : Int)).toNat =
        daysFromCivilN t.year t.month t.day * 1440 + t.hour * 60 + t.minute := by
      omega
    rw [e1]
    have e2 : (daysFromCivilN t.year t.month t.day * 1440 + t.hour * 60 + t.minute) / 1440 =
        daysFromCivilN t.year t.month t.day := by
      omega
    have e3 : (daysFromCivilN t.year t.month t.day * 1440 + t.hour * 60 + t.minute) % 1440 / 60 =
        t.hour := by
      omega
    have e4 : (daysFromCivilN t.year t.month t.day * 1440 + t.hour * 60 + t.minute) % 1440 % 60 =
        t.minute := by
      omega
    rw [e2, e3, e4, civil_roundtrip t.year t.month t.day hy1 hy2 hm1 hm2 hd1 hd2]
    rw [tsToken, tsToken]

theorem formatTs_spec_unparsed (now : PyDateTime) (s : List Char) (hp : pyFromIso s = none) :
    Core.formatTimestampToken now (some (.str s)) = specTimestampToken now (some (.str s)) := by
  rw [Core.formatTimestampToken, specTimestampToken]
  simp only []
  rw [hp]

theorem formatTs_spec_other (now : PyDateTime) (v : Option Json)
    (h : ∀ s, v ≠ some (.str s)) :
    Core.formatTimestampToken now v = specTimestampToken now v := by
  cases v with
  | none => rfl
  | some j =>
    cases j with
    | str s => exact absurd rfl (h s)
    | null => rfl
    | bool b => rfl
    | num n => rfl
    | arr es => rfl
    | obj ms => rfl

/-! ### Core: revision token, optional keys, and savefig -/

theorem gitHash_spec_str (s : List Char) :
    Core.formatGitHash (some (.str s)) = specRevToken (some s) := by
  rw [Core.formatGitHash, specRevToken]
  simp only []
  by_cases h0 : s.isEmpty
  · rw [if_pos h0]
    have hnil : s = [] := List.isEmpty_iff.mp h0
    subst hnil
    rfl
  · rw [if_neg h0]
    by_cases h1 : (pyStrip s).isEmpty
    · rw [if_pos h1, if_pos h1]
      decide
    · rw [if_neg h1, if_neg h1]

theorem gitHash_spec_none : Core.formatGitHash none = specRevToken none := rfl

theorem buildMetadata_source_null (name : List Char) (now : PyDateTime) (prov : Core.Providers)
    (h : prov.sourcePath = none) :
    Core.getKey (Core.buildMetadata name now prov none) "source".data = some Json.null := by
  rw [Core.buildMetadata]
  simp only []
  rw [h]
  rfl

theorem buildMetadata_cell_null (name : List Char) (now : PyDateTime) (prov : Core.Providers)
    (h : prov.cellNumber = none) :
    Core.getKey (Core.buildMetadata name now prov none) "cell_number".data = some Json.null := by
  rw [Core.buildMetadata]
  simp only []
  rw [h]
  rfl

theorem buildMetadata_git_null (name : List Char) (now : PyDateTime) (prov : Core.Providers)
    (h : prov.gitCommit = none) :
    Core.getKey (Core.buildMetadata name now prov none) "git_commit".data = some Json.null := by
  rw [Core.buildMetadata]
  simp only []
  rw [h]
  rfl

theorem buildMetadata_version_null (name : List Char) (now : PyDateTime) (prov : Core.Providers)
    (h : prov.refigVersion = none) :
    Core.getKey (Core.buildMetadata name now prov none) "refig_version".data =
      some Json.null := by
  rw [Core.buildMetadata]
  simp only []
  rw [h]
  rfl

theorem savefig_unsupported (name : List Char) (rendered : List Nat) (now : PyDateTime)
    (prov : Core.Providers) (extra : Option (List (List Char × Json))) (fs : Core.FileSys)
    (h : ¬(Core.lowerStr (Core.pathSuffix name) = ".png".data ∨
        Core.lowerStr (Core.pathSuffix name) = ".svg".data)) :
    Core.savefig name rendered now prov extra fs = (.error .unsupportedFormat, fs) := by
  rw [Core.savefig, if_neg h]

theorem savefig_error_frame (name : List Char) (rendered : List Nat) (now : PyDateTime)
    (prov : Core.Providers) (extra : Option (List (List Char × Json))) (fs : Core.FileSys) :
    ∀ err fs2, Core.savefig name rendered now prov extra fs = (.error err, fs2) → fs2 = fs := by
  intro err fs2 h
  simp only [Core.savefig] at h
  split_ifs at h
  · split at h
    · first
      | exact (congrArg Prod.snd h)
      | exact (congrArg Prod.snd h).symm
    · first
      | exact absurd (congrArg Prod.fst h) (by simp)
      | exact absurd (congrArg Prod.fst h).symm (by simp)
  · split at h
    · first
      | exact (congrArg Prod.snd h)
      | exact (congrArg Prod.snd h).symm
    · first
      | exact absurd (congrArg Prod.fst h) (by simp)
      | exact absurd (congrArg Prod.fst h).symm (by simp)
  · first
    | exact (congrArg Prod.snd h)
    | exact (congrArg Prod.snd h).symm

theorem savefig_embedFail_png (name : List Char) (rendered : List Nat) (now : PyDateTime)
    (prov : Core.Providers) (extra : Option (List (List Char × Json))) (fs : Core.FileSys)
    (e : Png.Err)
    (hsuf : Core.lowerStr (Core.pathSuffix name) = ".png".data)
    (hbad : Png.embed_metadata rendered (.obj (Core.buildMetadata name now prov extra)) =
      .error e) :
    Core.savefig name rendered now prov extra fs = (.error .embeddingFailure, fs) := by
  rw [Core.savefig, if_pos (Or.inl hsuf)]
  simp only []
  rw [if_pos hsuf, hbad]

theorem savefig_embedFail_svg (name : List Char) (rendered : List Nat) (now : PyDateTime)
    (prov : Core.Providers) (extra : Option (List (List Char × Json))) (fs : Core.FileSys)
    (e : Svg.Err)
    (hsuf : Core.lowerStr (Core.pathSuffix name) = ".svg".data)
    (hbad : Svg.embed_metadata rendered (.obj (Core.buildMetadata name now prov extra)) =
      .error e) :
    Core.savefig name rendered now prov extra fs = (.error .embeddingFailure, fs) := by
  rw [Core.savefig, if_pos (Or.inr hsuf)]
  simp only []
  rw [if_neg (by rw [hsuf]; decide), hbad]

theorem savefig_png_ok (name : List Char) (rendered : List Nat) (now : PyDateTime)
    (prov : Core.Providers) (extra : Option (List (List Char × Json))) (fs : Core.FileSys)
    (hsuf : Core.lowerStr (Core.pathSuffix name) = ".png".data)
    (hsig : pngSig.isPrefixOf rendered = true) :
    Core.savefig name rendered now prov extra fs =
      (let md := Core.buildMetadata name now prov extra
       let bytes := pngSig ++ (Png.buildTextChunk refigKeyword
         (encodeUtf8 (dumpsJson (.obj md))) ++ rendered.drop 8)
       let latest := "figures/latest/".data ++ Core.basename name
       let history := Core.buildHistoryPath name md now
       (.ok ⟨latest, history, md⟩,
        Core.fsWrite (Core.fsWrite fs latest bytes) history bytes)) := by
  rw [Core.savefig, if_pos (Or.inl hsuf)]
  simp only []
  rw [if_pos hsuf, Png.embed_metadata_ok hsig]

theorem png_reembed (png : List Nat) (M1 M2 : Json)
    (hsig : pngSig.isPrefixOf png = true) (hw2 : jsonWF M2 = true)
    (hlen1 : (refigKeyword ++ 0 :: encodeUtf8 (dumpsJson M1)).length < 4294967296)
    (hlen2 : (refigKeyword ++ 0 :: encodeUtf8 (dumpsJson M2)).length < 4294967296) :
    ∀ b1 b2, Png.embed_metadata png M1 = .ok b1 → Png.embed_metadata b1 M2 = .ok b2 →
      Png.extract_metadata b2 = .ok M2 ∧
        Png.countRefigChunks b2 = Png.countRefigChunks b1 + 1 := by
  intro b1 b2 h1 h2
  rw [Png.embed_metadata_ok hsig] at h1
  injection h1 with h1b
  subst h1b
  rw [Png.embed_metadata_ok (Png.sig_prefix_append _)] at h2
  injection h2 with h2b
  subst h2b
  constructor
  · rw [Png.extract_metadata, if_pos (Png.sig_prefix_append _), Png.drop8_sig]
    exact Png.extractLoop_refig M2 hw2 _ hlen2
  · rw [Png.countRefigChunks, Png.countRefigChunks, Png.pngChunks, Png.pngChunks,
      Png.drop8_sig, Png.drop8_sig]
    rw [Png.chunkSeq_buildTextChunk _ _ _ hlen2]
    rw [List.countP_cons]
    have hr : Png.isRefigChunk (tEXtType, refigKeyword ++ 0 :: encodeUtf8 (dumpsJson M2)) =
        true := by
      rw [Png.isRefigChunk]
      simp only [splitNull_append (by decide : (forall b, b ∈ refigKeyword → b ≠ 0)) _]
      simp
    rw [hr]
    simp

/-- C9: saving `plot.png` with no caller metadata writes the embedded
bytes to `figures/latest/plot.png` and to the history file
`figures/history/plot/_<timestamp>_<revision>.png`, both destinations
read back with identical contents, and the returned record's `figure`
field is `plot.png`. -/
theorem claim_C9 (rendered : List Nat) (now : PyDateTime) (prov : Core.Providers)
    (fs : Core.FileSys) (hsig : pngSig.isPrefixOf rendered = true) :
    ∀ res fs2, Core.savefig "plot.png".data rendered now prov none fs = (.ok res, fs2) →
      res.latest_path = "figures/latest/plot.png".data ∧
      Core.getKey res.metadata "figure".data = some (.str "plot.png".data) ∧
      res.history_path = "figures/history/plot/".data ++
        ('_' :: (Core.formatTimestampToken now (Core.getKey res.metadata "created_at".data) ++
          ('_' :: (Core.formatGitHash (Core.getKey res.metadata "git_commit".data) ++
            ".png".data)))) ∧
      Core.fsRead fs2 res.history_path = Core.fsRead fs2 res.latest_path ∧
      Core.fsRead fs2 res.latest_path ≠ none := by
  intro res fs2 h
  rw [savefig_png_ok "plot.png".data rendered now prov none fs (by decide) hsig] at h
  rw [Prod.ext_iff] at h
  obtain ⟨hA, hB⟩ := h
  simp only [] at hA hB
  injection hA with hA2
  subst hA2
  rw [← hB]
  simp only []
  have hreadH : Core.fsRead
      (Core.fsWrite (Core.fsWrite fs ("figures/latest/".data ++ Core.basename "plot.png".data)
        (pngSig ++ (Png.buildTextChunk refigKeyword (encodeUtf8 (dumpsJson
          (.obj (Core.buildMetadata "plot.png".data now prov none)))) ++ rendered.drop 8)))
        (Core.buildHistoryPath "plot.png".data
          (Core.buildMetadata "plot.png".data now prov none) now)
        (pngSig ++ (Png.buildTextChunk refigKeyword (encodeUtf8 (dumpsJson
          (.obj (Core.buildMetadata "plot.png".data now prov none)))) ++ rendered.drop 8)))
      (Core.buildHistoryPath "plot.png".data
        (Core.buildMetadata "plot.png".data now prov none) now) =
      some (pngSig ++ (Png.buildTextChunk refigKeyword (encodeUtf8 (dumpsJson
        (.obj (Core.buildMetadata "plot.png".data now prov none)))) ++ rendered.drop 8)) := by
    rw [Core.fsRead, Core.fsWrite, Core.fsWrite]
    rw [List.find?_cons_of_pos _ (by simp)]
    rfl
  have hreadL : Core.fsRead
      (Core.fsWrite (Core.fsWrite fs ("figures/latest/".data ++ Core.basename "plot.png".data)
        (pngSig ++ (Png.buildTextChunk refigKeyword (encodeUtf8 (dumpsJson
          (.obj (Core.buildMetadata "plot.png".data now prov none)))) ++ rendered.drop 8)))
        (Core.buildHistoryPath "plot.png".data
          (Core.buildMetadata "plot.png".data now prov none) now)
        (pngSig ++ (Png.buildTextChunk refigKeyword (encodeUtf8 (dumpsJson
          (.obj (Core.buildMetadata "plot.png".data now prov none)))) ++ rendered.drop 8)))
      ("figures/latest/".data ++ Core.basename "plot.png".data) =
      some (pngSig ++ (Png.buildTextChunk refigKeyword (encodeUtf8 (dumpsJson
        (.obj (Core.buildMetadata "plot.png".data now prov none)))) ++ rendered.drop 8)) := by
    rw [Core.fsRead, Core.fsWrite, Core.fsWrite]
    by_cases hq : Core.buildHistoryPath "plot.png".data
        (Core.buildMetadata "plot.png".data now prov none) now =
        ("figures/latest/".data ++ Core.basename "plot.png".data : List Char)
    · rw [List.find?_cons_of_pos _ (by simp [hq])]
      rfl
    · rw [List.find?_cons_of_neg _ (by simpa using hq), List.find?_cons_of_pos _ (by simp)]
      rfl
  refine ⟨by decide, rfl, rfl, ?_, ?_⟩
  · rw [hreadH, hreadL]
  · rw [hreadL]
    simp

/-- C9: saving `plot.png` with no caller metadata writes the embedded
bytes to `figures/latest/plot.png` and to the history file
`figures/history/plot/_<timestamp>_<revision>.png`, both destinations
read back with identical contents, and the returned record's `figure`
field is `plot.png`. -/
theorem claim_C10 (rendered : List Nat) (now : PyDateTime) (prov : Core.Providers)
    (fs : Core.FileSys) (hsig : pngSig.isPrefixOf rendered = true) :
    ∀ res fs2, Core.savefig "plot.PNG".data rendered now prov none fs = (.ok res, fs2) →
      res.latest_path = "figures/latest/plot.PNG".data ∧
      Core.getKey res.metadata "figure".data = some (.str "plot.PNG".data) ∧
      res.history_path = "figures/history/plot/".data ++
        ('_' :: (Core.formatTimestampToken now (Core.getKey res.metadata "created_at".data) ++
          ('_' :: (Core.formatGitHash (Core.getKey res.metadata "git_commit".data) ++
            ".png".data)))) ∧
      Core.fsRead fs2 res.history_path = Core.fsRead fs2 res.latest_path ∧
      Core.fsRead fs2 res.latest_path ≠ none := by
  intro res fs2 h
  rw [savefig_png_ok "plot.PNG".data rendered now prov none fs (by decide) hsig] at h
  rw [Prod.ext_iff] at h
  obtain ⟨hA, hB⟩ := h
  simp only [] at hA hB
  injection hA with hA2
  subst hA2
  rw [← hB]
  simp only []
  have hreadH : Core.fsRead
      (Core.fsWrite (Core.fsWrite fs ("figures/latest/".data ++ Core.basename "plot.PNG".data)
        (pngSig ++ (Png.buildTextChunk refigKeyword (encodeUtf8 (dumpsJson
          (.obj (Core.buildMetadata "plot.PNG".data now prov none)))) ++ rendered.drop 8)))
        (Core.buildHistoryPath "plot.PNG".data
          (Core.buildMetadata "plot.PNG".data now prov none) now)
        (pngSig ++ (Png.buildTextChunk refigKeyword (encodeUtf8 (dumpsJson
          (.obj (Core.buildMetadata "plot.PNG".data now prov none)))) ++ rendered.drop 8)))
      (Core.buildHistoryPath "plot.PNG".data
        (Core.buildMetadata "plot.PNG".data now prov none) now) =
      some (pngSig ++ (Png.buildTextChunk refigKeyword (encodeUtf8 (dumpsJson
        (.obj (Core.buildMetadata "plot.PNG".data now prov none)))) ++ rendered.drop 8)) := by
    rw [Core.fsRead, Core.fsWrite, Core.fsWrite]
    rw [List.find?_cons_of_pos _ (by simp)]
    rfl
  have hreadL : Core.fsRead
      (Core.fsWrite (Core.fsWrite fs ("figures/latest/".data ++ Core.basename "plot.PNG".data)
        (pngSig ++ (Png.buildTextChunk refigKeyword (encodeUtf8 (dumpsJson
          (.obj (Core.buildMetadata "plot.PNG".data now prov none)))) ++ rendered.drop 8)))
        (Core.buildHistoryPath "plot.PNG".data
          (Core.buildMetadata "plot.PNG".data now prov none) now)
        (pngSig ++ (Png.buildTextChunk refigKeyword (encodeUtf8 (dumpsJson
          (.obj (Core.buildMetadata "plot.PNG".data now prov none)))) ++ rendered.drop 8)))
      ("figures/latest/".data ++ Core.basename "plot.PNG".data) =
      some (pngSig ++ (Png.buildTextChunk refigKeyword (encodeUtf8 (dumpsJson
        (.obj (Core.buildMetadata "plot.PNG".data now prov none)))) ++ rendered.drop 8)) := by
    rw [Core.fsRead, Core.fsWrite, Core.fsWrite]
    by_cases hq : Core.buildHistoryPath "plot.PNG".data
        (Core.buildMetadata "plot.PNG".data now prov none) now =
        ("figures/latest/".data ++ Core.basename "plot.PNG".data : List Char)
    · rw [List.find?_cons_of_pos _ (by simp [hq])]
      rfl
    · rw [List.find?_cons_of_neg _ (by simpa using hq), List.find?_cons_of_pos _ (by simp)]
      rfl
  refine ⟨by decide, rfl, rfl, ?_, ?_⟩
  · rw [hreadH, hreadL]
  · rw [hreadL]
    simp

/-! ### Claims -/

/-- C1 (amended): for a raster image bearing the signature and a
serializable record, extraction inverts embedding; for a markup image
that decodes as UTF-8, contains a root tag and no occurrence of the
metadata pattern, extraction inverts embedding.  (A pre-existing
pattern occurrence can break the round trip: see the counterexample.) -/
theorem claim_C1 :
    (∀ (png : List Nat) (M : Json), pngSig.isPrefixOf png = true → jsonWF M = true →
      (refigKeyword ++ 0 :: encodeUtf8 (dumpsJson M)).length < 4294967296 →
      (Png.embed_metadata png M).bind Png.extract_metadata = .ok M) ∧
    (∀ (svg : List Nat) (M : Json) (text pre tag post : List Char),
      decodeUtf8 svg = some text → Svg.noMetaOccB text = true →
      findSvgSplit text = some (pre, tag, post) → jsonWF M = true →
      (Svg.embed_metadata svg M).bind Svg.extract_metadata = .ok M) := by
  constructor
  · intro png M h1 h2 h3
    exact Png.extract_embed png M h1 h2 h3
  · intro svg M text pre tag post h1 h2 h3 h4
    exact svg_roundtrip_insert svg M text pre tag post h1 h2 h3 h4

theorem claim_C1_witness :
    (pngSig.isPrefixOf sigOnlyPng = true ∧ jsonWF cJson1 = true ∧
      (refigKeyword ++ 0 :: encodeUtf8 (dumpsJson cJson1)).length < 4294967296 ∧
      (Png.embed_metadata sigOnlyPng cJson1).bind Png.extract_metadata = .ok cJson1) ∧
    (decodeUtf8 goodSvgBytes = some goodSvgT ∧ Svg.noMetaOccB goodSvgT = true ∧
      findSvgSplit goodSvgT = some ([], "<svg>".data, "</svg>".data) ∧ jsonWF cJson1 = true ∧
      (Svg.embed_metadata goodSvgBytes cJson1).bind Svg.extract_metadata = .ok cJson1) :=
  ⟨⟨by decide, by decide, by decide,
    claim_C1.1 sigOnlyPng cJson1 (by decide) (by decide) (by decide)⟩,
   ⟨by decide, by decide, by decide, by decide,
    claim_C1.2 goodSvgBytes cJson1 goodSvgT [] "<svg>".data "</svg>".data
      (by decide) (by decide) (by decide) (by decide)⟩⟩

/-- C1 counterexample: `badSvgBytes` is a well-formed SVG document (it
has a root tag, and its only irregularity is a comment that talks about
a metadata element); embedding succeeds, but the comment's unclosed
lookalike becomes the leftmost pattern match once the real element
supplies a closing tag, so extraction returns a JSON error instead of
the embedded record. -/
theorem claim_C1_counterexample :
    (findSvgSplit badSvgT).isSome = true ∧
    decodeUtf8 badSvgBytes = some badSvgT ∧
    (Svg.embed_metadata badSvgBytes cJson1).bind Svg.extract_metadata =
      .error .jsonError := by
  refine ⟨by decide, by decide, ?_⟩
  rfl

/-- C2 (amended): re-embedding `M2` over an image embedded with `M1`
yields extraction equal to `M2` for both codecs; the markup codec
replaces the existing element and leaves exactly one block, while the
raster codec prepends a second block, so the artifact holds one MORE
reserved block than before rather than exactly one. -/
theorem claim_C2 :
    (∀ (png : List Nat) (M1 M2 : Json), pngSig.isPrefixOf png = true → jsonWF M2 = true →
      (refigKeyword ++ 0 :: encodeUtf8 (dumpsJson M1)).length < 4294967296 →
      (refigKeyword ++ 0 :: encodeUtf8 (dumpsJson M2)).length < 4294967296 →
      ∀ b1 b2, Png.embed_metadata png M1 = .ok b1 → Png.embed_metadata b1 M2 = .ok b2 →
        Png.extract_metadata b2 = .ok M2 ∧
          Png.countRefigChunks b2 = Png.countRefigChunks b1 + 1) ∧
    (∀ (svg : List Nat) (M1 M2 : Json) (text pre tag post : List Char),
      decodeUtf8 svg = some text → Svg.noMetaOccB text = true →
      findSvgSplit text = some (pre, tag, post) → jsonWF M2 = true →
      ∀ out, (Svg.embed_metadata svg M1).bind (fun b => Svg.embed_metadata b M2) = .ok out →
        Svg.extract_metadata out = .ok M2 ∧
          (match decodeUtf8 out with
           | some t => Svg.uniqueMeta t
           | none => false) = true) := by
  constructor
  · intro png M1 M2 h1 h2 h3 h4
    exact png_reembed png M1 M2 h1 h2 h3 h4
  · intro svg M1 M2 text pre tag post h1 h2 h3 h4
    exact svg_reembed svg M1 M2 text pre tag post h1 h2 h3 h4

theorem claim_C2_witness :
    (pngSig.isPrefixOf sigOnlyPng = true ∧ jsonWF cJson2 = true ∧
      Png.extract_metadata pngTwice = .ok cJson2 ∧
      Png.countRefigChunks pngTwice = Png.countRefigChunks pngOnce + 1) ∧
    ((Svg.embed_metadata goodSvgBytes cJson1).bind (fun b => Svg.embed_metadata b cJson2) =
        .ok svgTwice ∧
      Svg.extract_metadata svgTwice = .ok cJson2 ∧
      (match decodeUtf8 svgTwice with
       | some t => Svg.uniqueMeta t
       | none => false) = true) := by
  have hpng := claim_C2.1 sigOnlyPng cJson1 cJson2 (by decide) (by decide) (by decide)
    (by decide) pngOnce pngTwice rfl (by rfl)
  have hsvg := claim_C2.2 goodSvgBytes cJson1 cJson2 goodSvgT [] "<svg>".data "</svg>".data
    (by decide) (by decide) (by decide) (by decide) svgTwice (by rfl)
  exact ⟨⟨by decide, by decide, hpng.1, hpng.2⟩, ⟨by rfl, hsvg.1, hsvg.2⟩⟩

/-- C2 counterexample: after embedding `cJson1` into a signature-only
raster image and re-embedding `cJson2`, the artifact holds TWO reserved
metadata blocks, not exactly one, though extraction does return the
second record. -/
theorem claim_C2_counterexample :
    Png.embed_metadata sigOnlyPng cJson1 = .ok pngOnce ∧
    Png.embed_metadata pngOnce cJson2 = .ok pngTwice ∧
    Png.countRefigChunks pngTwice = 2 ∧
    Png.extract_metadata pngTwice = .ok cJson2 :=
  ⟨Png.embed_once, Png.embed_twice, Png.twice_count, Png.twice_extract⟩

/-- C3 (amended): the history filename's timestamp token matches the
spec's description whenever the parsed timestamp carries no offset or a
zero offset, and on every unparseable or non-string value; for a
nonzero explicit offset the code formats the wall-clock fields as
parsed, WITHOUT converting to UTC (see the counterexample). -/
theorem claim_C3 :
    (∀ (now : PyDateTime) (s : List Char) (t : PyDateTime),
      pyFromIso s = some t → (t.tzOffMinutes = none ∨ t.tzOffMinutes = some 0) →
      Core.formatTimestampToken now (some (.str s)) =
        specTimestampToken now (some (.str s))) ∧
    (∀ (now : PyDateTime) (s : List Char), pyFromIso s = none →
      Core.formatTimestampToken now (some (.str s)) =
        specTimestampToken now (some (.str s))) ∧
    (∀ (now : PyDateTime) (v : Option Json), (∀ s, v ≠ some (.str s)) →
      Core.formatTimestampToken now v = specTimestampToken now v) :=
  ⟨formatTs_spec_parsed, formatTs_spec_unparsed, formatTs_spec_other⟩

theorem claim_C3_witness :
    pyFromIso "2024-03-01T12:30:45Z".data =
      some (⟨2024, 3, 1, 12, 30, 45, 0, some 0⟩ : PyDateTime) ∧
    Core.formatTimestampToken now0 (some (.str "2024-03-01T12:30:45Z".data)) =
      specTimestampToken now0 (some (.str "2024-03-01T12:30:45Z".data)) :=
  ⟨by decide,
   claim_C3.1 now0 "2024-03-01T12:30:45Z".data ⟨2024, 3, 1, 12, 30, 45, 0, some 0⟩
     (by decide) (Or.inr rfl)⟩

/-- C3 counterexample: for `created_at` equal to
`2024-01-01T12:00:00+05:00`, the instant in UTC is 07:00, so the spec's
reading demands token `20240101T070000`; the code does not convert and
produces `20240101T120000`. -/
theorem claim_C3_counterexample :
    Core.formatTimestampToken now0 (some (.str "2024-01-01T12:00:00+05:00".data)) =
      "20240101T120000".data ∧
    specTimestampToken now0 (some (.str "2024-01-01T12:00:00+05:00".data)) =
      "20240101T070000".data ∧
    Core.formatTimestampToken now0 (some (.str "2024-01-01T12:00:00+05:00".data)) ≠
      specTimestampToken now0 (some (.str "2024-01-01T12:00:00+05:00".data)) := by
  refine ⟨by decide, by decide, ?_⟩
  intro h
  rw [show Core.formatTimestampToken now0 (some (.str "2024-01-01T12:00:00+05:00".data)) =
    "20240101T120000".data from by decide,
    show specTimestampToken now0 (some (.str "2024-01-01T12:00:00+05:00".data)) =
    "20240101T070000".data from by decide] at h
  exact absurd h (by decide)

/-- C4 (amended): when an optional metadata source is undeterminable,
the corresponding key is PRESENT in the composed record and bound to
`null` (Python `None`), not absent. -/
theorem claim_C4 (name : List Char) (now : PyDateTime) (prov : Core.Providers) :
    (prov.sourcePath = none →
      Core.getKey (Core.buildMetadata name now prov none) "source".data = some Json.null) ∧
    (prov.cellNumber = none →
      Core.getKey (Core.buildMetadata name now prov none) "cell_number".data =
        some Json.null) ∧
    (prov.gitCommit = none →
      Core.getKey (Core.buildMetadata name now prov none) "git_commit".data =
        some Json.null) ∧
    (prov.refigVersion = none →
      Core.getKey (Core.buildMetadata name now prov none) "refig_version".data =
        some Json.null) :=
  ⟨buildMetadata_source_null name now prov, buildMetadata_cell_null name now prov,
   buildMetadata_git_null name now prov, buildMetadata_version_null name now prov⟩

theorem claim_C4_witness :
    Core.getKey (Core.buildMetadata ['x'] now0 prov0 none) "source".data = some Json.null ∧
    Core.getKey (Core.buildMetadata ['x'] now0 prov0 none) "cell_number".data =
      some Json.null ∧
    Core.getKey (Core.buildMetadata ['x'] now0 prov0 none) "git_commit".data =
      some Json.null ∧
    Core.getKey (Core.buildMetadata ['x'] now0 prov0 none) "refig_version".data =
      some Json.null :=
  ⟨(claim_C4 ['x'] now0 prov0).1 rfl, (claim_C4 ['x'] now0 prov0).2.1 rfl,
   (claim_C4 ['x'] now0 prov0).2.2.1 rfl, (claim_C4 ['x'] now0 prov0).2.2.2 rfl⟩

/-- C4 counterexample: with every provider undeterminable, the `source`
key of the composed record is present (bound to `null`), not absent as
the claim states. -/
theorem claim_C4_counterexample :
    Core.getKey (Core.buildMetadata ['x'] now0 prov0 none) "source".data ≠ none ∧
    Core.getKey (Core.buildMetadata ['x'] now0 prov0 none) "source".data =
      some Json.null := by
  constructor
  · intro h
    rw [show Core.getKey (Core.buildMetadata ['x'] now0 prov0 none) "source".data =
      some Json.null from rfl] at h
    exact Option.noConfusion h
  · rfl

/-- C5: embedding into a signed raster image leaves every pre-existing
chunk's type, data and relative order unchanged, and inserts the new
reserved metadata block first, immediately after the signature. -/
theorem claim_C5 (png : List Nat) (M : Json) (hsig : pngSig.isPrefixOf png = true)
    (hlen : (refigKeyword ++ 0 :: encodeUtf8 (dumpsJson M)).length < 4294967296) :
    (Png.embed_metadata png M).map Png.pngChunks =
      .ok ((tEXtType, refigKeyword ++ 0 :: encodeUtf8 (dumpsJson M)) ::
        Png.pngChunks png) := by
  rw [Png.embed_metadata_ok hsig]
  show Except.ok (Png.pngChunks _) = _
  rw [Png.pngChunks, Png.drop8_sig, Png.chunkSeq_buildTextChunk _ _ _ hlen]
  rfl

theorem claim_C5_witness :
    pngSig.isPrefixOf sigOnlyPng = true ∧
    (refigKeyword ++ 0 :: encodeUtf8 (dumpsJson cJson1)).length < 4294967296 ∧
    (Png.embed_metadata sigOnlyPng cJson1).map Png.pngChunks =
      .ok ((tEXtType, refigKeyword ++ 0 :: encodeUtf8 (dumpsJson cJson1)) ::
        Png.pngChunks sigOnlyPng) :=
  ⟨by decide, by decide, claim_C5 sigOnlyPng cJson1 (by decide) (by decide)⟩

/-- C6: an unsupported extension fails with UnsupportedFormatError and
leaves the filesystem untouched; a codec error during embedding fails
with EmbeddingFailure and leaves the filesystem untouched; in fact
every failing save leaves the filesystem exactly as it was. -/
theorem claim_C6 :
    (∀ (name : List Char) (rendered : List Nat) (now : PyDateTime) (prov : Core.Providers)
      (extra : Option (List (List Char × Json))) (fs : Core.FileSys),
      ¬(Core.lowerStr (Core.pathSuffix name) = ".png".data ∨
          Core.lowerStr (Core.pathSuffix name) = ".svg".data) →
      Core.savefig name rendered now prov extra fs = (.error .unsupportedFormat, fs)) ∧
    (∀ (name : List Char) (rendered : List Nat) (now : PyDateTime) (prov : Core.Providers)
      (extra : Option (List (List Char × Json))) (fs : Core.FileSys) (e : Png.Err),
      Core.lowerStr (Core.pathSuffix name) = ".png".data →
      Png.embed_metadata rendered (.obj (Core.buildMetadata name now prov extra)) =
        .error e →
      Core.savefig name rendered now prov extra fs = (.error .embeddingFailure, fs)) ∧
    (∀ (name : List Char) (rendered : List Nat) (now : PyDateTime) (prov : Core.Providers)
      (extra : Option (List (List Char × Json))) (fs : Core.FileSys) (e : Svg.Err),
      Core.lowerStr (Core.pathSuffix name) = ".svg".data →
      Svg.embed_metadata rendered (.obj (Core.buildMetadata name now prov extra)) =
        .error e →
      Core.savefig name rendered now prov extra fs = (.error .embeddingFailure, fs)) ∧
    (∀ (name : List Char) (rendered : List Nat) (now : PyDateTime) (prov : Core.Providers)
      (extra : Option (List (List Char × Json))) (fs : Core.FileSys)
      (err : Core.SaveErr) (fs2 : Core.FileSys),
      Core.savefig name rendered now prov extra fs = (.error err, fs2) → fs2 = fs) :=
  ⟨savefig_unsupported, savefig_embedFail_png, savefig_embedFail_svg,
   fun name rendered now prov extra fs err fs2 h =>
     savefig_error_frame name rendered now prov extra fs err fs2 h⟩

theorem claim_C6_witness :
    Core.savefig "plot.jpg".data sigOnlyPng now0 prov0 none [] =
      (.error .unsupportedFormat, []) ∧
    Core.savefig "plot.png".data [] now0 prov0 none [] =
      (.error .embeddingFailure, []) :=
  ⟨claim_C6.1 "plot.jpg".data sigOnlyPng now0 prov0 none [] (by decide),
   claim_C6.2.1 "plot.png".data [] now0 prov0 none [] Png.Err.notPng (by decide) rfl⟩

/-- C7 (amended): a raster extraction is a FormatError exactly when the
signature is missing, or the chunk scan ends cleanly without meeting
the reserved block, or it meets a `tEXt` chunk with an empty keyword (a
case outside the claim's list: see the counterexample); a markup
extraction is a FormatError exactly when the bytes are not UTF-8, no
metadata element matches, or the matched body is empty after unescaping
and trimming. -/
theorem claim_C7 :
    (∀ png : List Nat, Png.isFormatError (Png.extract_metadata png) = pngFormatErrCond png) ∧
    (∀ svg : List Nat, Svg.isFormatError (Svg.extract_metadata svg) = svgFormatErrCond svg) :=
  ⟨png_formatErr_eq, svg_formatErr_eq⟩

/-- C7 counterexample: `emptyKwPng` carries the signature and a proper
reserved metadata block, yet extraction raises a FormatError because an
earlier `tEXt` chunk has an empty keyword, a case the claim's list does
not include. -/
theorem claim_C7_counterexample :
    pngSig.isPrefixOf emptyKwPng = true ∧
    Png.countRefigChunks emptyKwPng = 1 ∧
    Png.extract_metadata emptyKwPng = .error .invalidTextChunk ∧
    Png.isFormatError (Png.extract_metadata emptyKwPng) = true := by
  refine ⟨by decide, Png.emptyKw_count, Png.emptyKw_extract, ?_⟩
  rw [Png.emptyKw_extract]
  rfl

/-- C8: the history-filename revision token is the trimmed revision
truncated to its first seven characters, with the literal `nogit` for
an absent revision or one that is empty (or whitespace) after
trimming; this agrees with the spec-side reading on every value. -/
theorem claim_C8 :
    (∀ s : List Char, Core.formatGitHash (some (.str s)) = specRevToken (some s)) ∧
    Core.formatGitHash none = specRevToken none :=
  ⟨gitHash_spec_str, gitHash_spec_none⟩

theorem claim_C9_witness :
    pngSig.isPrefixOf sigOnlyPng = true ∧
    (res0.latest_path = "figures/latest/plot.png".data ∧
      Core.getKey res0.metadata "figure".data = some (.str "plot.png".data) ∧
      res0.history_path = "figures/history/plot/".data ++
        ('_' :: (Core.formatTimestampToken now0
            (Core.getKey res0.metadata "created_at".data) ++
          ('_' :: (Core.formatGitHash (Core.getKey res0.metadata "git_commit".data) ++
            ".png".data)))) ∧
      Core.fsRead save0.2 res0.history_path = Core.fsRead save0.2 res0.latest_path ∧
      Core.fsRead save0.2 res0.latest_path ≠ none) :=
  ⟨by decide, claim_C9 sigOnlyPng now0 prov0 [] (by decide) res0 save0.2 (by rfl)⟩

theorem claim_C10_witness :
    pngSig.isPrefixOf sigOnlyPng = true ∧
    (resP0.latest_path = "figures/latest/plot.PNG".data ∧
      Core.getKey resP0.metadata "figure".data = some (.str "plot.PNG".data) ∧
      resP0.history_path = "figures/history/plot/".data ++
        ('_' :: (Core.formatTimestampToken now0
            (Core.getKey resP0.metadata "created_at".data) ++
          ('_' :: (Core.formatGitHash (Core.getKey resP0.metadata "git_commit".data) ++
            ".png".data)))) ∧
      Core.fsRead saveP0.2 resP0.history_path = Core.fsRead saveP0.2 resP0.latest_path ∧
      Core.fsRead saveP0.2 resP0.latest_path ≠ none) :=
  ⟨by decide, claim_C10 sigOnlyPng now0 prov0 [] (by decide) resP0 saveP0.2 (by rfl)⟩

end Refig
